import Mathlib

/-!
# OpenTable availability monitor: poll cycle and diff

A shallow embedding of `monitor/availability.go` (`slotInfo`, `buildURL`,
`fetchSlots`, `hashOfExact`), of `monitor/monitor.go` (`StartMonitor` with its
`onePoll` closure), of `buildTimes` in `main.go` and of the text of the field
`Available Times` in `notifications/discord.go`, followed by theorems about
them.

Modelling conventions.

* A Go `string` is a Lean `String`; a Go `int` is an `Int` (no arithmetic is
  performed on the integers that flow through this code, they are only
  formatted); a Go `error` is an `Option GoError`, `none` being `nil`.
* A Go `map[string]slotInfo` is an association list in which every key occurs
  once (`SlotMap`).  A `range` over a map visits the entries in an order the
  language leaves unspecified: every loop over a map takes a `RangeOrder`, and
  the theorems hold for every order that is a permutation of the entries.
* The callback is observed through the list of calls made to it (`Event`).
  Writes to the terminal (`fmt.Printf`) are not part of the model.
* The network is the environment: a poll cycle receives the value returned by
  `fetchSlots` as an argument, and `fetchSlots` receives what its request and
  the decoding of the response come to (`Transport`).
* The functions of the Go library that the code calls (`url.QueryEscape`,
  `strconv.Atoi`, `time.Parse` and `Time.Format` with the layout `15:04`,
  `strings.Join`) are modelled after their documented behaviour.
-/

namespace Monitor

/-! ## Slot model (`availability.go`) -/

/-- One offered reservation window, the Go struct `slotInfo`. -/
structure slotInfo where
  Time : String
  SlotHash : String
  PointsType : String
  PointsValue : Int
  Attributes : List String
  IsMandatory : Bool
deriving DecidableEq, Repr

/-- UTF-8 encoding of one character, as byte values: a Go string is its bytes. -/
def utf8Bytes (c : Char) : List Nat :=
  let n := c.toNat
  if n < 128 then [n]
  else if n < 2048 then [192 + n / 64, 128 + n % 64]
  else if n < 65536 then [224 + n / 4096, 128 + (n / 64) % 64, 128 + n % 64]
  else [240 + n / 262144, 128 + (n / 4096) % 64, 128 + (n / 64) % 64, 128 + n % 64]

/-- Go `net/url.shouldEscape` in query-component mode: only ASCII letters,
digits and the marks `-` `_` `.` `~` stay as they are. -/
def shouldEscape (b : Nat) : Bool :=
  if (97 ≤ b ∧ b ≤ 122) ∨ (65 ≤ b ∧ b ≤ 90) ∨ (48 ≤ b ∧ b ≤ 57) then false
  else if b = 45 ∨ b = 95 ∨ b = 46 ∨ b = 126 then false
  else true

/-- One upper-case hexadecimal digit (`"0123456789ABCDEF"[d]`). -/
def upperhex (d : Nat) : Char :=
  if d < 10 then Char.ofNat (48 + d) else Char.ofNat (55 + d)

/-- Escaping of one byte by `url.QueryEscape`: a space becomes `+`, any other
byte that must be escaped becomes `%XX`. -/
def escapeByte (b : Nat) : List Char :=
  if shouldEscape b then
    if b = 32 then [Char.ofNat 43]
    else [Char.ofNat 37, upperhex (b / 16), upperhex (b % 16)]
  else [Char.ofNat b]

/-- Go `url.QueryEscape`. -/
def queryEscape (s : String) : String :=
  String.mk ((s.data.flatMap utf8Bytes).flatMap escapeByte)

/-- The verb `%t` of `fmt.Sprintf`. -/
def fmtBool (b : Bool) : String := if b then "true" else "false"

/-- The verb `%d` of `fmt.Sprintf`. -/
def fmtInt (i : Int) : String := toString i

/-- The method `slotInfo.buildURL`. -/
def slotInfo.buildURL (s : slotInfo) (date : String) (party : Int) (token : String)
    (rid : Int) : String :=
  let dateTime := queryEscape (date ++ "T" ++ s.Time ++ ":00")
  "https://www.opentable.ca/booking/details?availabilityToken=" ++ token
    ++ "&dateTime=" ++ dateTime
    ++ "&partySize=" ++ fmtInt party
    ++ "&points=" ++ fmtInt s.PointsValue
    ++ "&pointsType=" ++ s.PointsType
    ++ "&rid=" ++ fmtInt rid
    ++ "&slotHash=" ++ s.SlotHash
    ++ "&isModify=false&isMandatory=" ++ fmtBool s.IsMandatory
    ++ "&cfe=true"

/-- The function `hashOfExact`: the `SlotHash` of the first slot of the list
whose `Time` is `pref`, the empty string when there is none. -/
def hashOfExact (list : List slotInfo) (pref : String) : String :=
  match list with
  | [] => ""
  | s :: rest => if s.Time = pref then s.SlotHash else hashOfExact rest pref

/-! ## Maps keyed by `SlotHash` -/

/-- A Go `map[string]slotInfo`. -/
abbrev SlotMap := List (String × slotInfo)

/-- The map read `v, ok := m[k]`; `none` is `ok = false`. -/
def mapLookup (m : SlotMap) (k : String) : Option slotInfo :=
  match m with
  | [] => none
  | (k1, v) :: rest => if k1 = k then some v else mapLookup rest k

/-- The map write `m[k] = v`: an existing key keeps its place and takes the new
value, a new key is added. -/
def mapStore (m : SlotMap) (k : String) (v : slotInfo) : SlotMap :=
  match m with
  | [] => [(k, v)]
  | (k1, v1) :: rest => if k1 = k then (k, v) :: rest else (k1, v1) :: mapStore rest k v

/-- The loop `for _, s := range current { now[s.SlotHash] = s }` of `onePoll`,
started from the map `acc`. -/
def mapifyFrom (acc : SlotMap) (current : List slotInfo) : SlotMap :=
  current.foldl (fun m s => mapStore m s.SlotHash s) acc

/-- The snapshot `now` of `onePoll`: `current` keyed by `SlotHash`. -/
def mapify (current : List slotInfo) : SlotMap := mapifyFrom [] current

/-- The order in which one `range` loop visits the entries of a map. -/
abbrev RangeOrder := SlotMap → List (String × slotInfo)

/-- A `range` loop visits every entry of the map once, in some order. -/
def RangeOrder.Valid (ro : RangeOrder) : Prop := ∀ m : SlotMap, (ro m).Perm m

/-- Every key of the map occurs once. -/
def SlotMap.WF (m : SlotMap) : Prop := (m.map Prod.fst).Nodup

/-- Every entry of the map is filed under the `SlotHash` of its slot. -/
def SlotMap.Keyed (m : SlotMap) : Prop := ∀ e ∈ m, e.2.SlotHash = e.1

/-- The first slot of the fetched list at the preferred time, if any: the slot an exact
match is about. -/
def firstAtTime (list : List slotInfo) (pref : String) : Option slotInfo :=
  list.find? (fun s => decide (s.Time = pref))

/-! ## The poll cycle (`monitor.go`) -/

/-- A Go `error` value that is not `nil`. -/
structure GoError where
  msg : String
deriving DecidableEq, Repr

/-- One call of the `NotificationCallback`, with its three arguments. -/
structure Event where
  exactMatch : Bool
  reservationURL : String
  alternativeTimes : List String
deriving DecidableEq, Repr

/-- What `fetchSlots` returns when its error is `nil`: the slots, the
availability token and the numeric restaurant id. -/
structure Fetched where
  current : List slotInfo
  token : String
  rid : Int
deriving DecidableEq, Repr

/-- The slice `added` of `onePoll`: the slots of `now`, in the order of the
`range` loop, whose key is not in `prev`. -/
def added (ro : RangeOrder) (prev now : SlotMap) : List slotInfo :=
  ((ro now).filter (fun e => (mapLookup prev e.1).isNone)).map Prod.snd

/-- The slice `removed` of `onePoll`: the slots of `prev`, in the order of the
`range` loop, whose key is not in `now`. -/
def removed (ro : RangeOrder) (prev now : SlotMap) : List slotInfo :=
  ((ro prev).filter (fun e => (mapLookup now e.1).isNone)).map Prod.snd

/-- The line `fmt.Sprintf("• %s [%s] → [Book](%s)", s.Time, attr, url)`. -/
def altLine (time attr url : String) : String :=
  "• " ++ time ++ " [" ++ attr ++ "] → [Book](" ++ url ++ ")"

/-- The loop `for _, s := range added` of `onePoll`, on the pair
`(reservationURL, alternativeTimes)`, which starts as `("", [])`. -/
def alternativesLoop (date : String) (party : Int) (token : String) (rid : Int)
    (addedSlots : List slotInfo) (init : String × List String) : String × List String :=
  addedSlots.foldl
    (fun acc s =>
      let attr := String.intercalate "," s.Attributes
      let url := s.buildURL date party token rid
      (if acc.1 = "" then url else acc.1, acc.2 ++ [altLine s.Time attr url]))
    init

/-- What one run of the closure `onePoll` does: its two results, the calls it
made to the callback, and the value of the captured variable `prev` afterwards. -/
structure PollResult where
  found : Bool
  err : Option GoError
  events : List Event
  prev : SlotMap
deriving DecidableEq, Repr

/-- The closure `onePoll` of `StartMonitor`.  `hasCallback` is `callback != nil`,
`roAdded` and `roRemoved` are the orders of its two `range` loops over maps,
`prev` is the captured variable and `fetch` what `fetchSlots` returned. -/
def onePoll (hasCallback : Bool) (date timePref : String) (partySize : Int)
    (roAdded roRemoved : RangeOrder) (prev : SlotMap)
    (fetch : Except GoError Fetched) : PollResult :=
  match fetch with
  | .error e => { found := false, err := some e, events := [], prev := prev }
  | .ok f =>
    let now := mapify f.current
    let exactHash := hashOfExact f.current timePref
    match mapLookup now exactHash with
    | some slot =>
      { found := true, err := none,
        events :=
          if hasCallback then [⟨true, slot.buildURL date partySize f.token f.rid, []⟩] else [],
        prev := prev }
    | none =>
      let addedSlots := added roAdded prev now
      let removedSlots := removed roRemoved prev now
      if addedSlots.length = 0 ∧ removedSlots.length = 0 then
        { found := false, err := none, events := [], prev := prev }
      else
        let evs : List Event :=
          if addedSlots.length > 0 then
            let r := alternativesLoop date partySize f.token f.rid addedSlots ("", [])
            if hasCallback ∧ r.2.length > 0 then [⟨false, r.1, r.2⟩] else []
          else []
        { found := false, err := none, events := evs, prev := now }

/-! ## The polling loop (`monitor.go`) -/

/-- What one iteration of the `select` of `StartMonitor` receives: the closing
of `ctx.Done()`, or a tick of the ticker, after which a poll cycle runs with
the given `range` orders and the given result of `fetchSlots`. -/
inductive Wake where
  | done : Wake
  | tick (roAdded roRemoved : RangeOrder) (fetch : Except GoError Fetched) : Wake

/-- What a run of `StartMonitor` does: the error it returns (`none` while it
still waits in its `select`, `some none` for a `nil` error) and the poll
cycles it ran, in order.  Each poll cycle performs one fetch. -/
structure RunResult where
  ret : Option (Option GoError)
  polls : List PollResult

/-- The loop `for { select { ... } }` of `StartMonitor`, from the captured
variable `prev`, against the wake-ups the environment delivers.  `ctxErr` is
the value of `ctx.Err()` once `ctx.Done()` is closed, which is never `nil`. -/
def pollLoop (hasCallback : Bool) (date timePref : String) (partySize : Int)
    (ctxErr : GoError) (prev : SlotMap) (script : List Wake) : RunResult :=
  match script with
  | [] => { ret := none, polls := [] }
  | .done :: _ => { ret := some (some ctxErr), polls := [] }
  | .tick roAdded roRemoved fetch :: rest =>
    let p := onePoll hasCallback date timePref partySize roAdded roRemoved prev fetch
    if p.err ≠ none then { ret := some p.err, polls := [p] }
    else if p.found then { ret := some none, polls := [p] }
    else
      let r := pollLoop hasCallback date timePref partySize ctxErr p.prev rest
      { ret := r.ret, polls := p :: r.polls }

/-- The method `StartMonitor`: the first poll, from the empty `prev`, then the
loop.  `roAdded`, `roRemoved` and `fetch` belong to the first poll. -/
def StartMonitor (hasCallback : Bool) (date timePref : String) (partySize : Int)
    (ctxErr : GoError) (roAdded roRemoved : RangeOrder) (fetch : Except GoError Fetched)
    (script : List Wake) : RunResult :=
  let p := onePoll hasCallback date timePref partySize roAdded roRemoved [] fetch
  if p.err ≠ none ∨ p.found then { ret := some p.err, polls := [p] }
  else
    let r := pollLoop hasCallback date timePref partySize ctxErr p.prev script
    { ret := r.ret, polls := p :: r.polls }

/-- The entry of `alternativeTimes` that `onePoll` builds for the added slot `s`. -/
def altLineOf (date : String) (party : Int) (token : String) (rid : Int) (s : slotInfo) :
    String :=
  altLine s.Time (String.intercalate "," s.Attributes) (s.buildURL date party token rid)

/-! ## The availability fetcher (`availability.go`) -/

/-- The value of an ASCII decimal digit. -/
def digitVal (c : Char) : Option Nat :=
  if 48 ≤ c.toNat ∧ c.toNat ≤ 57 then some (c.toNat - 48) else none

/-- The two errors of `strconv`: `ErrSyntax` and `ErrRange`. -/
inductive NumErrKind where
  | invalidSyntax : NumErrKind
  | outOfRange : NumErrKind
deriving DecidableEq, Repr

/-- The text of `ErrSyntax` and of `ErrRange`. -/
def NumErrKind.msg : NumErrKind → String
  | .invalidSyntax => "invalid syntax"
  | .outOfRange => "value out of range"

/-- The digit loop of `strconv.ParseUint(s, 10, 64)` from the value `n` read so
far: a byte that is no digit is a syntax error, a value beyond `2^64 - 1` a
range error, whichever comes first. -/
def parseUintLoop (cs : List Char) (n : Nat) : Except NumErrKind Nat :=
  match cs with
  | [] => .ok n
  | c :: rest =>
    match digitVal c with
    | none => .error .invalidSyntax
    | some d =>
      if n ≥ 1844674407370955162 then .error .outOfRange
      else if n * 10 + d > 18446744073709551615 then .error .outOfRange
      else parseUintLoop rest (n * 10 + d)

/-- Go `strconv.Atoi` with a 64-bit `int`: an optional sign, then at least one
decimal digit and nothing else, the value lying in `[-2^63, 2^63 - 1]`. -/
def Atoi (s : String) : Except NumErrKind Int :=
  match s.data with
  | [] => .error .invalidSyntax
  | c :: rest =>
    let neg : Bool := c.toNat = 45
    let digits := if c.toNat = 43 ∨ c.toNat = 45 then rest else c :: rest
    if digits = [] then .error .invalidSyntax
    else
      match parseUintLoop digits 0 with
      | .error k => .error k
      | .ok un =>
        if neg = false ∧ un ≥ 9223372036854775808 then .error .outOfRange
        else if neg = true ∧ un > 9223372036854775808 then .error .outOfRange
        else .ok (if neg then -(un : Int) else (un : Int))

/-- One entry of `slots` in the decoded response of the service. -/
structure ApiSlot where
  IsAvailable : Bool
  TimeOffsetMinutes : Int
  SlotHash : String
  PointsType : String
  PointsValue : Int
  Attributes : List String
  IsMandatory : Bool
deriving DecidableEq, Repr

/-- One entry of `availabilityDays`. -/
structure ApiDay where
  Slots : List ApiSlot
deriving DecidableEq, Repr

/-- One entry of `data.availability`. -/
structure ApiAvailability where
  RestaurantID : Int
  RestaurantAvailabilityToken : String
  AvailabilityDays : List ApiDay
deriving DecidableEq, Repr

/-- The decoded response, the variable `api` of `fetchSlots`. -/
structure ApiResponse where
  Availability : List ApiAvailability
deriving DecidableEq, Repr

/-- What the network part of `fetchSlots` comes to: the request could not be
built, the request failed, the body could not be decoded, or a response was
decoded. -/
inductive Transport where
  | buildFailed (e : GoError) : Transport
  | requestFailed (e : GoError) : Transport
  | decodeFailed (e : GoError) : Transport
  | decoded (api : ApiResponse) : Transport
deriving DecidableEq, Repr

/-- Wrapping of a 64-bit signed integer operation. -/
def wrap64 (x : Int) : Int :=
  (x + 9223372036854775808) % 18446744073709551616 - 9223372036854775808

/-- Go `time.Parse("15:04", value)`, as the hour and the minute it reads: one
or two digits for the hour, below 24, a colon, two digits for the minute, below
60, and nothing else. `none` is a parse error. -/
def parseClock (value : String) : Option (Nat × Nat) :=
  match value.data with
  | [] => none
  | c1 :: rest =>
    match digitVal c1 with
    | none => none
    | some d1 =>
      let hr : Nat × List Char :=
        match rest with
        | [] => (d1, rest)
        | c2 :: rest2 =>
          match digitVal c2 with
          | none => (d1, rest)
          | some d2 => (d1 * 10 + d2, rest2)
      if 24 ≤ hr.1 then none
      else
        match hr.2 with
        | [c3, c4, c5] =>
          if c3.toNat = 58 then
            match digitVal c4, digitVal c5 with
            | some d4, some d5 => if 60 ≤ d4 * 10 + d5 then none else some (hr.1, d4 * 10 + d5)
            | _, _ => none
          else none
        | _ => none

/-- The decimal digit `d` as a character. -/
def digitChar (d : Nat) : Char := Char.ofNat (48 + d)

/-- Two-digit rendering with a leading zero, of a number below 100: the
elements `15` and `04` of `Time.Format` and the verb `%02d`. -/
def pad2 (n : Nat) : String := String.mk [digitChar (n / 10 % 10), digitChar (n % 10)]

/-- The expression
`base.Add(time.Minute * time.Duration(s.TimeOffsetMinutes)).Format("15:04")` of
`fetchSlots`, where `base, _ := time.Parse("15:04", timePref)`. The base is
taken as the seconds since the midnight of its day (zero when the parse fails,
the zero `Time` being a midnight); the duration is a 64-bit count of
nanoseconds, so the product wraps; `Add` moves the time by the duration, whose
whole seconds are its floor, without reaching the bounds of `Time`. -/
def slotClock (timePref : String) (offsetMinutes : Int) : String :=
  let base : Int :=
    match parseClock timePref with
    | some (h, m) => 3600 * (h : Int) + 60 * (m : Int)
    | none => 0
  let d := wrap64 (60000000000 * wrap64 offsetMinutes)
  let clock := (base + d / 1000000000) % 86400
  pad2 (clock / 3600).toNat ++ ":" ++ pad2 (clock % 3600 / 60).toNat

/-- The slot `fetchSlots` builds from an entry of the response. -/
def slotOfApi (timePref : String) (s : ApiSlot) : slotInfo :=
  { Time := slotClock timePref s.TimeOffsetMinutes,
    SlotHash := s.SlotHash,
    PointsType := s.PointsType,
    PointsValue := s.PointsValue,
    Attributes := s.Attributes,
    IsMandatory := s.IsMandatory }

/-- The method `fetchSlots`, on the restaurant id, the preferred time and what
the network part comes to (the date and the party size only enter the request).
The error case stands for the result `(nil, "", 0, err)`. `quote` is the verb
`%q` of `fmt`, that is `strconv.Quote`. -/
def fetchSlots (quote : String → String) (ridStr timePref : String)
    (transport : Transport) : Except GoError Fetched :=
  match Atoi ridStr with
  | .error k =>
    .error ⟨"restaurant id " ++ quote ridStr ++ ": strconv.Atoi: parsing " ++ quote ridStr
      ++ ": " ++ k.msg⟩
  | .ok _ =>
    match transport with
    | .buildFailed e => .error ⟨"build req: " ++ e.msg⟩
    | .requestFailed e => .error ⟨"availability request: " ++ e.msg⟩
    | .decodeFailed e => .error ⟨"decode: " ++ e.msg⟩
    | .decoded api =>
      match api.Availability with
      | [] => .ok ⟨[], "", 0⟩
      | ra :: _ =>
        .ok ⟨((ra.AvailabilityDays.flatMap ApiDay.Slots).filter ApiSlot.IsAvailable).map
              (slotOfApi timePref),
            ra.RestaurantAvailabilityToken, ra.RestaurantID⟩

/-- The function `buildTimes` of `main.go`: the 48 half hours of the day. -/
def buildTimes : List String :=
  (List.range 24).flatMap (fun h => [0, 30].map (fun m => pad2 h ++ ":" ++ pad2 m))

/-- The string is made of ASCII digits, `-` and `:` only. -/
def TimestampChars (s : String) : Prop :=
  ∀ c ∈ s.data, (48 ≤ c.toNat ∧ c.toNat ≤ 57) ∨ c.toNat = 45 ∨ c.toNat = 58

/-- The string is made of ASCII digits and `-` only. -/
def DateChars (s : String) : Prop :=
  ∀ c ∈ s.data, (48 ≤ c.toNat ∧ c.toNat ≤ 57) ∨ c.toNat = 45

instance (s : String) : Decidable (TimestampChars s) := by
  unfold TimestampChars; infer_instance

instance (s : String) : Decidable (DateChars s) := by
  unfold DateChars; infer_instance

/-- The string with every `:` replaced by `%3A`. -/
def colonEscape (s : String) : String :=
  String.mk (s.data.flatMap (fun c => if c.toNat = 58 then "%3A".data else [c]))

/-- The entries of an availability entry that are flagged available, over all
its days, in the order of the response. -/
def availableEntries (ra : ApiAvailability) : List ApiSlot :=
  (ra.AvailabilityDays.flatMap ApiDay.Slots).filter ApiSlot.IsAvailable

/-! ## The alternatives message (`notifications/discord.go`) -/

/-- Go `strings.Join` on strings taken as their bytes. -/
def joinBytes (elems : List (List Nat)) (sep : List Nat) : List Nat :=
  match elems with
  | [] => []
  | [a] => a
  | a :: b :: rest => a ++ sep ++ joinBytes (b :: rest) sep

/-- The variable `timesText` of `SendAlternativeTimes`, which becomes the value
of the field `Available Times`: the alternative times joined by newlines, cut
to its first 997 bytes and three dots when longer than 1000 bytes. Strings are
their bytes here, as `len` and the slice `[:997]` count bytes. -/
def timesText (alternativeTimes : List (List Nat)) : List Nat :=
  let joined := joinBytes alternativeTimes [10]
  if joined.length > 1000 then joined.take 997 ++ [46, 46, 46] else joined

/-- The callback calls of a run, in order. -/
def runEvents (polls : List PollResult) : List Event := polls.flatMap PollResult.events

/-- The shape of the poll cycles of a run: a cycle that is followed by another
one made no call with `exactMatch = true`, and the last cycle made at most one
call. -/
def ExactOnlyLast : List PollResult → Prop
  | [] => True
  | [p] => p.events.length ≤ 1
  | p :: q :: rest => (∀ ev ∈ p.events, ev.exactMatch = false) ∧ ExactOnlyLast (q :: rest)

/-! ## Sample inputs -/

/-- A slot at 19:00 whose `slotHash` came back empty from the service. -/
def slotNoHash : slotInfo := ⟨"19:00", "", "Standard", 0, [], false⟩

/-- A slot at 18:00 with identity `h`. -/
def slotEarly : slotInfo := ⟨"18:00", "h", "Standard", 0, [], false⟩

/-- A slot at 19:00 that carries the identity `h` as well. -/
def slotLate : slotInfo := ⟨"19:00", "h", "Standard", 100, ["bar"], true⟩

/-- Slot `A` at 18:30. -/
def slotA : slotInfo := ⟨"18:30", "A", "Standard", 0, ["default"], false⟩

/-- Slot `B` at 19:00. -/
def slotB : slotInfo := ⟨"19:00", "B", "Standard", 0, ["default"], false⟩

/-- A slot at 18:00 with identity `h1`. -/
def slotOld : slotInfo := ⟨"18:00", "h1", "Standard", 0, [], false⟩

/-- A slot at 18:00, as `slotOld`, with the new identity `h2` and other points. -/
def slotNew : slotInfo := ⟨"18:00", "h2", "Standard", 500, [], false⟩

/-- The alternatives event of a first cycle that fetched the slot `A` alone. -/
def sampleFirstReport : Event :=
  ⟨false, slotA.buildURL "2025-07-04" 2 "tok" 7, [altLineOf "2025-07-04" 2 "tok" 7 slotA]⟩

/-- The alternatives event for `B` then `A`. -/
def sampleAlternatives : Event :=
  ⟨false, slotB.buildURL "2025-07-04" 2 "tok" 7,
    [altLineOf "2025-07-04" 2 "tok" 7 slotB, altLineOf "2025-07-04" 2 "tok" 7 slotA]⟩

/-- The error of a fetch that could not reach the service. -/
def fetchFailed : GoError := ⟨"availability request: connection reset"⟩

/-- The error of a cancelled context. -/
def ctxCanceled : GoError := ⟨"context canceled"⟩

/-- The error `fetchSlots` returns when its request runs on a cancelled context. -/
def fetchCanceled : GoError := ⟨"availability request: context canceled"⟩

/-- Quoting of a string of printable ASCII without quote and backslash, as
`strconv.Quote` does it: the string between two double quotes. -/
def plainQuote (s : String) : String :=
  String.mk [Char.ofNat 34] ++ s ++ String.mk [Char.ofNat 34]

/-- An available entry of the response, 30 minutes after the preferred time. -/
def apiSlotPlus30 : ApiSlot := ⟨true, 30, "h30", "Standard", 100, ["default"], false⟩

/-- An entry of the response that is not available. -/
def apiSlotTaken : ApiSlot := ⟨false, 60, "h60", "Standard", 0, ["bar"], false⟩

/-- An available entry of the response, 45 minutes before the preferred time. -/
def apiSlotMinus45 : ApiSlot := ⟨true, -45, "m45", "POP", 1000, ["bar", "patio"], true⟩

/-- An available entry whose offset is 153722868 minutes, one minute more than
a `time.Duration` can hold. -/
def apiSlotFar : ApiSlot := ⟨true, 153722868, "far", "Standard", 0, [], false⟩

/-- A decoded response with two availability entries, the first with two days. -/
def sampleResponse : ApiResponse :=
  ⟨[⟨1234, "tok", [⟨[apiSlotPlus30, apiSlotTaken]⟩, ⟨[apiSlotMinus45]⟩]⟩,
    ⟨99, "other", [⟨[apiSlotFar]⟩]⟩]⟩

/-- The slot `A` fetched again under the same identity with other points and
attributes. -/
def slotARepriced : slotInfo := ⟨"18:30", "A", "POP", 1000, ["patio"], true⟩

/-- A slot at 18:30 with identity `h1`. -/
def slotHeld : slotInfo := ⟨"18:30", "h1", "Standard", 0, ["default"], false⟩

/-- A slot at 18:30, as `slotHeld`, whose `slotHash` came back empty. -/
def slotAnon : slotInfo := ⟨"18:30", "", "Standard", 500, ["default"], false⟩

/-- The order of a `range` loop that visits the entries as they are stored. -/
def storedOrder : RangeOrder := fun m => m

/-- The order of a `range` loop that visits the entries last to first. -/
def reversedOrder : RangeOrder := fun m => m.reverse

set_option maxRecDepth 100000

/-! ## Lemmas on maps -/

theorem mapLookup_mapStore (m : SlotMap) (k : String) (v : slotInfo) (k1 : String) :
    mapLookup (mapStore m k v) k1 = if k = k1 then some v else mapLookup m k1 := by
  induction m with
  | nil => simp [mapStore, mapLookup]
  | cons e rest ih =>
    obtain ⟨k0, v0⟩ := e
    by_cases h0 : k0 = k
    · subst h0
      by_cases h1 : k0 = k1 <;> simp [mapStore, mapLookup, h1]
    · by_cases h1 : k0 = k1
      · subst h1
        have : ¬ k = k0 := fun h => h0 h.symm
        simp [mapStore, mapLookup, h0, this]
      · simp [mapStore, mapLookup, h0, h1, ih]

theorem mapLookup_isSome_iff (m : SlotMap) (k : String) :
    mapLookup m k ≠ none ↔ k ∈ m.map Prod.fst := by
  induction m with
  | nil => simp [mapLookup]
  | cons e rest ih =>
    obtain ⟨k0, v0⟩ := e
    by_cases h0 : k0 = k
    · simp [mapLookup, h0]
    · have : ¬ k = k0 := fun h => h0 h.symm
      simp only [mapLookup, h0, if_false, ih, List.map_cons, List.mem_cons, this, false_or]

theorem mapLookup_eq_none_iff (m : SlotMap) (k : String) :
    mapLookup m k = none ↔ k ∉ m.map Prod.fst := by
  rw [← mapLookup_isSome_iff]; simp

theorem mem_of_mapLookup (m : SlotMap) (k : String) (v : slotInfo)
    (h : mapLookup m k = some v) : (k, v) ∈ m := by
  induction m with
  | nil => simp [mapLookup] at h
  | cons e rest ih =>
    obtain ⟨k0, v0⟩ := e
    by_cases h0 : k0 = k
    · simp [mapLookup, h0] at h
      simp [h0, h]
    · simp [mapLookup, h0] at h
      exact List.mem_cons_of_mem _ (ih h)

theorem mapLookup_of_mem (m : SlotMap) (hm : m.WF) (k : String) (v : slotInfo)
    (h : (k, v) ∈ m) : mapLookup m k = some v := by
  induction m with
  | nil => simp at h
  | cons e rest ih =>
    obtain ⟨k0, v0⟩ := e
    simp only [SlotMap.WF, List.map_cons, List.nodup_cons] at hm
    rcases List.mem_cons.1 h with h1 | h1
    · cases h1; simp [mapLookup]
    · have hk : k ∈ rest.map Prod.fst := List.mem_map.2 ⟨(k, v), h1, rfl⟩
      have h0 : ¬ k0 = k := fun e => hm.1 (e ▸ hk)
      simp only [mapLookup, h0, if_false]
      exact ih hm.2 h1

theorem keys_mapStore (m : SlotMap) (k : String) (v : slotInfo) (k1 : String) :
    k1 ∈ (mapStore m k v).map Prod.fst ↔ k1 = k ∨ k1 ∈ m.map Prod.fst := by
  rw [← mapLookup_isSome_iff, ← mapLookup_isSome_iff, mapLookup_mapStore]
  by_cases h : k = k1
  · simp [h]
  · have : ¬ k1 = k := fun e => h e.symm
    simp [h, this]

theorem mapStore_WF (m : SlotMap) (k : String) (v : slotInfo) (hm : m.WF) :
    (mapStore m k v).WF := by
  induction m with
  | nil => simp [mapStore, SlotMap.WF]
  | cons e rest ih =>
    obtain ⟨k0, v0⟩ := e
    simp only [SlotMap.WF, List.map_cons, List.nodup_cons] at hm
    by_cases h0 : k0 = k
    · subst h0
      simp only [mapStore, if_true, SlotMap.WF, List.map_cons, List.nodup_cons]
      exact hm
    · simp only [mapStore, h0, if_false, SlotMap.WF, List.map_cons, List.nodup_cons]
      refine ⟨?_, ih hm.2⟩
      intro hk
      rcases (keys_mapStore rest k v k0).1 hk with h1 | h1
      · exact h0 h1
      · exact hm.1 h1

theorem mapStore_Keyed (m : SlotMap) (s : slotInfo) (hm : m.Keyed) :
    (mapStore m s.SlotHash s).Keyed := by
  induction m with
  | nil => intro e he; simp [mapStore] at he; subst he; rfl
  | cons e0 rest ih =>
    obtain ⟨k0, v0⟩ := e0
    have hrest : SlotMap.Keyed rest := fun e he => hm e (List.mem_cons_of_mem _ he)
    by_cases h0 : k0 = s.SlotHash
    · intro e he
      simp only [mapStore, h0, if_true, List.mem_cons] at he
      rcases he with he | he
      · subst he; rfl
      · exact hrest e he
    · intro e he
      simp only [mapStore, h0, if_false, List.mem_cons] at he
      rcases he with he | he
      · subst he; exact hm _ (List.mem_cons_self _ _)
      · exact ih hrest e he

theorem mapifyFrom_WF (current : List slotInfo) (acc : SlotMap) (h : acc.WF) :
    (mapifyFrom acc current).WF := by
  induction current generalizing acc with
  | nil => exact h
  | cons s rest ih => exact ih _ (mapStore_WF acc s.SlotHash s h)

theorem mapifyFrom_Keyed (current : List slotInfo) (acc : SlotMap) (h : acc.Keyed) :
    (mapifyFrom acc current).Keyed := by
  induction current generalizing acc with
  | nil => exact h
  | cons s rest ih => exact ih _ (mapStore_Keyed acc s h)

theorem mapify_WF (current : List slotInfo) : (mapify current).WF :=
  mapifyFrom_WF current [] (by simp [SlotMap.WF])

theorem mapify_Keyed (current : List slotInfo) : (mapify current).Keyed :=
  mapifyFrom_Keyed current [] (by intro e he; simp at he)

theorem keys_mapifyFrom (current : List slotInfo) (acc : SlotMap) (k : String) :
    k ∈ (mapifyFrom acc current).map Prod.fst ↔
      k ∈ current.map slotInfo.SlotHash ∨ k ∈ acc.map Prod.fst := by
  induction current generalizing acc with
  | nil => simp [mapifyFrom]
  | cons s rest ih =>
    have := ih (mapStore acc s.SlotHash s)
    simp only [mapifyFrom, List.foldl_cons] at this ⊢
    rw [this, keys_mapStore]
    simp only [List.map_cons, List.mem_cons]
    tauto

/-- The keys of the snapshot are the identities of the fetched slots. -/
theorem keys_mapify (current : List slotInfo) (k : String) :
    k ∈ (mapify current).map Prod.fst ↔ k ∈ current.map slotInfo.SlotHash := by
  rw [mapify, keys_mapifyFrom]; simp

/-! ## The exact-match branch -/

theorem hashOfExact_eq (list : List slotInfo) (pref : String) :
    hashOfExact list pref =
      match firstAtTime list pref with
      | some s => s.SlotHash
      | none => "" := by
  induction list with
  | nil => rfl
  | cons s rest ih =>
    by_cases h : s.Time = pref
    · simp [hashOfExact, firstAtTime, h]
    · simp only [hashOfExact, h, if_false, ih, firstAtTime]
      rw [List.find?_cons_of_neg _ (by simpa using h)]

theorem hashOfExact_mem (list : List slotInfo) (pref : String)
    (h : ∃ s ∈ list, s.Time = pref) :
    hashOfExact list pref ∈ list.map slotInfo.SlotHash := by
  induction list with
  | nil => simp at h
  | cons s rest ih =>
    by_cases h0 : s.Time = pref
    · simp [hashOfExact, h0]
    · simp only [hashOfExact, h0, if_false, List.map_cons, List.mem_cons]
      right
      apply ih
      obtain ⟨t, ht, hp⟩ := h
      rcases List.mem_cons.1 ht with h1 | h1
      · subst h1; exact absurd hp h0
      · exact ⟨t, h1, hp⟩

/-- C1. Whenever the fetched list holds a slot whose `Time` is the preferred
time, the poll cycle is an exact match, whatever the previous snapshot and the
other fetched slots are: `onePoll` returns `(true, nil)`, a non-nil callback is
called exactly once, with `exactMatch = true` and no alternative times, and
the stored snapshot is left as it was. -/
theorem onePoll_exact_of_time_match (hasCallback : Bool) (date timePref : String)
    (partySize : Int) (roAdded roRemoved : RangeOrder) (prev : SlotMap) (f : Fetched)
    (h : ∃ s ∈ f.current, s.Time = timePref) :
    (onePoll hasCallback date timePref partySize roAdded roRemoved prev (.ok f)).found = true ∧
    (onePoll hasCallback date timePref partySize roAdded roRemoved prev (.ok f)).err = none ∧
    ∃ url, (onePoll true date timePref partySize roAdded roRemoved prev (.ok f)).events
      = [⟨true, url, []⟩] := by
  have hk : mapLookup (mapify f.current) (hashOfExact f.current timePref) ≠ none := by
    rw [mapLookup_isSome_iff, keys_mapify]
    exact hashOfExact_mem _ _ h
  obtain ⟨slot, hslot⟩ := Option.ne_none_iff_exists'.1 hk
  refine ⟨?_, ?_, slot.buildURL date partySize f.token f.rid, ?_⟩ <;>
    simp [onePoll, hslot]

/-- A fetched list with a slot at the preferred time among others, against a
previous snapshot that shares nothing with it. -/
theorem onePoll_exact_of_time_match_witness :
    (∃ s ∈ [(⟨"19:00", "b", "Standard", 0, [], false⟩ : slotInfo),
        ⟨"18:00", "a", "Standard", 0, [], false⟩], s.Time = "18:00") ∧
    ((onePoll true "2025-07-04" "18:00" 2 id id
        [("z", ⟨"17:00", "z", "Standard", 0, [], false⟩)]
        (.ok ⟨[⟨"19:00", "b", "Standard", 0, [], false⟩,
          ⟨"18:00", "a", "Standard", 0, [], false⟩], "tok", 7⟩)).found = true ∧
     (onePoll true "2025-07-04" "18:00" 2 id id
        [("z", ⟨"17:00", "z", "Standard", 0, [], false⟩)]
        (.ok ⟨[⟨"19:00", "b", "Standard", 0, [], false⟩,
          ⟨"18:00", "a", "Standard", 0, [], false⟩], "tok", 7⟩)).err = none ∧
     ∃ url, (onePoll true "2025-07-04" "18:00" 2 id id
        [("z", ⟨"17:00", "z", "Standard", 0, [], false⟩)]
        (.ok ⟨[⟨"19:00", "b", "Standard", 0, [], false⟩,
          ⟨"18:00", "a", "Standard", 0, [], false⟩], "tok", 7⟩)).events
        = [⟨true, url, []⟩]) :=
  ⟨by decide,
   onePoll_exact_of_time_match true "2025-07-04" "18:00" 2 id id
     [("z", ⟨"17:00", "z", "Standard", 0, [], false⟩)]
     ⟨[⟨"19:00", "b", "Standard", 0, [], false⟩,
       ⟨"18:00", "a", "Standard", 0, [], false⟩], "tok", 7⟩ (by decide)⟩

/-- C2 (the code at the failing input). The fetched list holds one slot, at
19:00 and with an empty `SlotHash`; the preferred time is 18:00, so no fetched
slot is at the preferred time. `hashOfExact` returns its not-found value `""`,
the snapshot has an entry under `""`, and `onePoll` returns `(true, nil)` and
calls the callback with `exactMatch = true`. -/
theorem onePoll_exact_without_time_match :
    (∀ s ∈ [slotNoHash], s.Time ≠ "18:00") ∧
    hashOfExact [slotNoHash] "18:00" = "" ∧
    onePoll true "2025-07-04" "18:00" 2 id id [] (.ok ⟨[slotNoHash], "tok", 7⟩)
      = ⟨true, none, [⟨true, slotNoHash.buildURL "2025-07-04" 2 "tok" 7, []⟩], []⟩ := by
  decide

/-- C3 (the code at the failing input). Two fetched slots carry the identity
`h`: the first is at the preferred time 18:00, the second at 19:00. The slot
read back from the snapshot under `h` is the second one, so the URL given to
the callback is the URL of the 19:00 slot, which is not the URL of the first
slot at the preferred time. -/
theorem onePoll_exact_reports_last_of_hash :
    firstAtTime [slotEarly, slotLate] "18:00" = some slotEarly ∧
    (onePoll true "2025-07-04" "18:00" 2 id id [] (.ok ⟨[slotEarly, slotLate], "tok", 7⟩)).events
      = [⟨true, slotLate.buildURL "2025-07-04" 2 "tok" 7, []⟩] ∧
    slotLate.buildURL "2025-07-04" 2 "tok" 7 ≠ slotEarly.buildURL "2025-07-04" 2 "tok" 7 := by
  decide

/-! ## The diff branch -/

theorem buildURL_ne_empty (s : slotInfo) (date : String) (party : Int) (token : String)
    (rid : Int) : s.buildURL date party token rid ≠ "" := by
  intro h
  have hlen := congrArg String.length h
  simp only [slotInfo.buildURL, String.length_append] at hlen
  have h0 : "https://www.opentable.ca/booking/details?availabilityToken=".length = 59 := by
    decide
  have h1 : "".length = 0 := rfl
  omega

theorem alternativesLoop_eq (date : String) (party : Int) (token : String) (rid : Int)
    (A : List slotInfo) (u : String) (acc : List String) :
    alternativesLoop date party token rid A (u, acc) =
      (if u = "" then
          (match A with
           | [] => ""
           | s :: _ => s.buildURL date party token rid)
        else u,
       acc ++ A.map (altLineOf date party token rid)) := by
  induction A generalizing u acc with
  | nil => by_cases hu : u = "" <;> simp [alternativesLoop, hu]
  | cons s rest ih =>
    have ih1 := ih (if u = "" then s.buildURL date party token rid else u)
      (acc ++ [altLine s.Time (String.intercalate "," s.Attributes)
        (s.buildURL date party token rid)])
    simp only [alternativesLoop, List.foldl_cons] at ih1 ⊢
    rw [ih1]
    by_cases hu : u = ""
    · simp [hu, buildURL_ne_empty, altLineOf]
    · simp [hu, altLineOf]

theorem onePoll_found_iff (hasCallback : Bool) (date timePref : String) (partySize : Int)
    (roAdded roRemoved : RangeOrder) (prev : SlotMap) (f : Fetched) :
    (onePoll hasCallback date timePref partySize roAdded roRemoved prev (.ok f)).found = true ↔
      mapLookup (mapify f.current) (hashOfExact f.current timePref) ≠ none := by
  cases hl : mapLookup (mapify f.current) (hashOfExact f.current timePref) with
  | none =>
    by_cases hc : (added roAdded prev (mapify f.current)).length = 0 ∧
        (removed roRemoved prev (mapify f.current)).length = 0
    · simp [onePoll, hl, hc]
    · simp only [onePoll, hl, hc, if_false]; simp
  | some slot => simp [onePoll, hl]

/-- The diff branch of `onePoll` in closed form: what the cycle does when the
snapshot has no entry under the value of `hashOfExact`. -/
theorem onePoll_diff (hasCallback : Bool) (date timePref : String) (partySize : Int)
    (roAdded roRemoved : RangeOrder) (prev : SlotMap) (f : Fetched)
    (hl : mapLookup (mapify f.current) (hashOfExact f.current timePref) = none) :
    onePoll hasCallback date timePref partySize roAdded roRemoved prev (.ok f) =
      { found := false, err := none,
        events :=
          match added roAdded prev (mapify f.current) with
          | [] => []
          | s :: rest =>
            if hasCallback then
              [⟨false, s.buildURL date partySize f.token f.rid,
                (s :: rest).map (altLineOf date partySize f.token f.rid)⟩]
            else [],
        prev :=
          if added roAdded prev (mapify f.current) = [] ∧
              removed roRemoved prev (mapify f.current) = [] then prev
          else mapify f.current } := by
  cases hA : added roAdded prev (mapify f.current) with
  | nil =>
    cases hR : removed roRemoved prev (mapify f.current) with
    | nil => simp [onePoll, hl, hA, hR]
    | cons r rs => simp [onePoll, hl, hA, hR]
  | cons a as =>
    cases hasCallback <;>
      simp [onePoll, hl, hA, alternativesLoop_eq]

theorem mem_added_iff (ro : RangeOrder) (hro : ro.Valid) (prev now : SlotMap) (s : slotInfo) :
    s ∈ added ro prev now ↔ ∃ k, (k, s) ∈ now ∧ mapLookup prev k = none := by
  simp only [added, List.mem_map, List.mem_filter, (hro now).mem_iff, Option.isNone_iff_eq_none]
  constructor
  · rintro ⟨⟨k, v⟩, ⟨hm, hn⟩, rfl⟩
    exact ⟨k, hm, hn⟩
  · rintro ⟨k, hm, hn⟩
    exact ⟨(k, s), ⟨hm, hn⟩, rfl⟩

theorem mem_removed_iff (ro : RangeOrder) (hro : ro.Valid) (prev now : SlotMap) (s : slotInfo) :
    s ∈ removed ro prev now ↔ ∃ k, (k, s) ∈ prev ∧ mapLookup now k = none := by
  simp only [removed, List.mem_map, List.mem_filter, (hro prev).mem_iff,
    Option.isNone_iff_eq_none]
  constructor
  · rintro ⟨⟨k, v⟩, ⟨hm, hn⟩, rfl⟩
    exact ⟨k, hm, hn⟩
  · rintro ⟨k, hm, hn⟩
    exact ⟨(k, s), ⟨hm, hn⟩, rfl⟩

theorem added_eq_nil_iff (ro : RangeOrder) (hro : ro.Valid) (prev now : SlotMap) :
    added ro prev now = [] ↔ ∀ k, k ∈ now.map Prod.fst → k ∈ prev.map Prod.fst := by
  rw [List.eq_nil_iff_forall_not_mem]
  constructor
  · intro h k hk
    by_contra hn
    obtain ⟨⟨k1, v⟩, hm, rfl⟩ := List.mem_map.1 hk
    exact h v ((mem_added_iff ro hro prev now v).2
      ⟨k1, hm, (mapLookup_eq_none_iff prev k1).2 hn⟩)
  · intro h s hs
    obtain ⟨k, hm, hn⟩ := (mem_added_iff ro hro prev now s).1 hs
    exact (mapLookup_eq_none_iff prev k).1 hn (h k (List.mem_map.2 ⟨(k, s), hm, rfl⟩))

theorem removed_eq_nil_iff (ro : RangeOrder) (hro : ro.Valid) (prev now : SlotMap) :
    removed ro prev now = [] ↔ ∀ k, k ∈ prev.map Prod.fst → k ∈ now.map Prod.fst := by
  rw [List.eq_nil_iff_forall_not_mem]
  constructor
  · intro h k hk
    by_contra hn
    obtain ⟨⟨k1, v⟩, hm, rfl⟩ := List.mem_map.1 hk
    exact h v ((mem_removed_iff ro hro prev now v).2
      ⟨k1, hm, (mapLookup_eq_none_iff now k1).2 hn⟩)
  · intro h s hs
    obtain ⟨k, hm, hn⟩ := (mem_removed_iff ro hro prev now s).1 hs
    exact (mapLookup_eq_none_iff now k).1 hn (h k (List.mem_map.2 ⟨(k, s), hm, rfl⟩))

/-- The identities of the added slots are the keys of the entries kept by the
filter. -/
theorem added_hashes_eq (ro : RangeOrder) (hro : ro.Valid) (prev now : SlotMap)
    (hk : now.Keyed) :
    (added ro prev now).map slotInfo.SlotHash =
      ((ro now).filter (fun e => (mapLookup prev e.1).isNone)).map Prod.fst := by
  simp only [added, List.map_map]
  apply List.map_congr_left
  intro e he
  exact hk e ((hro now).mem_iff.1 (List.mem_of_mem_filter he))

theorem added_hashes_nodup (ro : RangeOrder) (hro : ro.Valid) (prev now : SlotMap)
    (hw : now.WF) (hk : now.Keyed) :
    ((added ro prev now).map slotInfo.SlotHash).Nodup := by
  rw [added_hashes_eq ro hro prev now hk]
  have h1 : ((ro now).map Prod.fst).Nodup := ((hro now).map Prod.fst).nodup_iff.2 hw
  exact h1.sublist ((List.filter_sublist _).map Prod.fst)

theorem added_hash_mem_iff (ro : RangeOrder) (hro : ro.Valid) (prev now : SlotMap)
    (hk : now.Keyed) (k : String) :
    k ∈ (added ro prev now).map slotInfo.SlotHash ↔
      k ∈ now.map Prod.fst ∧ k ∉ prev.map Prod.fst := by
  rw [added_hashes_eq ro hro prev now hk]
  simp only [List.mem_map, List.mem_filter, (hro now).mem_iff, Option.isNone_iff_eq_none,
    mapLookup_eq_none_iff]
  constructor
  · rintro ⟨⟨k1, v⟩, ⟨hm, hn⟩, rfl⟩
    exact ⟨⟨(k1, v), hm, rfl⟩, hn⟩
  · rintro ⟨⟨⟨k1, v⟩, hm, rfl⟩, hn⟩
    exact ⟨(k1, v), ⟨hm, hn⟩, rfl⟩

theorem added_lookup (ro : RangeOrder) (hro : ro.Valid) (prev now : SlotMap)
    (hw : now.WF) (hk : now.Keyed) (s : slotInfo) (hs : s ∈ added ro prev now) :
    mapLookup now s.SlotHash = some s := by
  obtain ⟨k, hm, _⟩ := (mem_added_iff ro hro prev now s).1 hs
  have : s.SlotHash = k := hk (k, s) hm
  rw [this]
  exact mapLookup_of_mem now hw k s hm

theorem storedOrder_valid : storedOrder.Valid := fun m => List.Perm.refl m

theorem reversedOrder_valid : reversedOrder.Valid := fun m => List.reverse_perm m

/-- C4. In a poll cycle that is not an exact match (`onePoll` returns
`found = false`), with a non-nil callback, previous snapshot `prev` and current
snapshot `mapify f.current`: if some identity is a key of the current snapshot
and not of the previous one, the callback is called exactly once, with
`exactMatch = false`, and `alternativeTimes` holds the lines of a list `A` of
slots without repeated identity, whose identities are exactly the keys of the
current snapshot that are not keys of the previous one, each being the slot the
current snapshot holds under that identity; otherwise (nothing new, slots may
have disappeared) the callback is not called. -/
theorem onePoll_alternatives_iff_new_identity (date timePref : String) (partySize : Int)
    (roAdded roRemoved : RangeOrder) (hro : roAdded.Valid) (prev : SlotMap) (f : Fetched)
    (hno : (onePoll true date timePref partySize roAdded roRemoved prev (.ok f)).found
      = false) :
    ((∃ k, k ∈ (mapify f.current).map Prod.fst ∧ k ∉ prev.map Prod.fst) →
      ∃ (url : String) (A : List slotInfo),
        (onePoll true date timePref partySize roAdded roRemoved prev (.ok f)).events
          = [⟨false, url, A.map (altLineOf date partySize f.token f.rid)⟩] ∧
        (A.map slotInfo.SlotHash).Nodup ∧
        (∀ k, k ∈ A.map slotInfo.SlotHash ↔
          k ∈ (mapify f.current).map Prod.fst ∧ k ∉ prev.map Prod.fst) ∧
        (∀ s ∈ A, mapLookup (mapify f.current) s.SlotHash = some s)) ∧
    ((¬ ∃ k, k ∈ (mapify f.current).map Prod.fst ∧ k ∉ prev.map Prod.fst) →
      (onePoll true date timePref partySize roAdded roRemoved prev (.ok f)).events = []) := by
  have hl : mapLookup (mapify f.current) (hashOfExact f.current timePref) = none := by
    by_contra hc
    have := (onePoll_found_iff true date timePref partySize roAdded roRemoved prev f).2 hc
    rw [hno] at this
    exact Bool.noConfusion this
  rw [onePoll_diff true date timePref partySize roAdded roRemoved prev f hl]
  constructor
  · rintro ⟨k, hk1, hk2⟩
    cases hA : added roAdded prev (mapify f.current) with
    | nil =>
      exact absurd ((added_eq_nil_iff roAdded hro prev _).1 hA k hk1) hk2
    | cons a as =>
      refine ⟨a.buildURL date partySize f.token f.rid, a :: as, by simp, ?_, ?_, ?_⟩
      · rw [← hA]
        exact added_hashes_nodup roAdded hro prev _ (mapify_WF _) (mapify_Keyed _)
      · intro k1
        rw [← hA]
        exact added_hash_mem_iff roAdded hro prev _ (mapify_Keyed _) k1
      · intro s hs
        rw [← hA] at hs
        exact added_lookup roAdded hro prev _ (mapify_WF _) (mapify_Keyed _) s hs
  · intro hn
    have hA : added roAdded prev (mapify f.current) = [] := by
      rw [added_eq_nil_iff roAdded hro]
      intro k hk
      by_contra hk2
      exact hn ⟨k, hk, hk2⟩
    simp [hA]

/-- The second cycle of the scenario `{A@18:30}` then `{A@18:30, B@19:00}`,
preferred time 18:00. -/
theorem onePoll_alternatives_iff_new_identity_witness :
    storedOrder.Valid ∧
    (onePoll true "2025-07-04" "18:00" 2 storedOrder storedOrder (mapify [slotA])
      (.ok ⟨[slotA, slotB], "tok", 7⟩)).found = false ∧
    ((∃ k, k ∈ (mapify [slotA, slotB]).map Prod.fst ∧ k ∉ (mapify [slotA]).map Prod.fst) →
      ∃ (url : String) (A : List slotInfo),
        (onePoll true "2025-07-04" "18:00" 2 storedOrder storedOrder (mapify [slotA])
          (.ok ⟨[slotA, slotB], "tok", 7⟩)).events
          = [⟨false, url, A.map (altLineOf "2025-07-04" 2 "tok" 7)⟩] ∧
        (A.map slotInfo.SlotHash).Nodup ∧
        (∀ k, k ∈ A.map slotInfo.SlotHash ↔
          k ∈ (mapify [slotA, slotB]).map Prod.fst ∧ k ∉ (mapify [slotA]).map Prod.fst) ∧
        (∀ s ∈ A, mapLookup (mapify [slotA, slotB]) s.SlotHash = some s)) ∧
    ((¬ ∃ k, k ∈ (mapify [slotA, slotB]).map Prod.fst ∧ k ∉ (mapify [slotA]).map Prod.fst) →
      (onePoll true "2025-07-04" "18:00" 2 storedOrder storedOrder (mapify [slotA])
        (.ok ⟨[slotA, slotB], "tok", 7⟩)).events = []) :=
  ⟨storedOrder_valid, by decide,
   onePoll_alternatives_iff_new_identity "2025-07-04" "18:00" 2 storedOrder storedOrder
     storedOrder_valid (mapify [slotA]) ⟨[slotA, slotB], "tok", 7⟩ (by decide)⟩

/-- C5 (the code at the failing input). First cycle of a run, preferred time
18:00: the fetched list is not empty and has no slot at the preferred time, its
one slot having an empty `SlotHash`. The run emits no alternatives event: the
first cycle calls the callback with `exactMatch = true` and `StartMonitor`
returns `nil`. -/
theorem StartMonitor_first_cycle_empty_hash :
    [slotNoHash] ≠ [] ∧ (∀ s ∈ [slotNoHash], s.Time ≠ "18:00") ∧
    (StartMonitor true "2025-07-04" "18:00" 2 ⟨"context canceled"⟩ storedOrder storedOrder
      (.ok ⟨[slotNoHash], "tok", 7⟩) []).ret = some none ∧
    (StartMonitor true "2025-07-04" "18:00" 2 ⟨"context canceled"⟩ storedOrder storedOrder
      (.ok ⟨[slotNoHash], "tok", 7⟩) []).polls.map PollResult.events
      = [[⟨true, slotNoHash.buildURL "2025-07-04" 2 "tok" 7, []⟩]] := by
  decide

/-- C6 (the code at the failing input). A run with the preferred time 18:00.
The first cycle fetches `slotHeld`, identity `h1` at 18:30, and stores the
snapshot `{h1 ↦ slotHeld}`. The second cycle fetches `slotAnon`, at the same
time 18:30, whose `SlotHash` is empty: the current snapshot differs from the
stored one only in that the slot under `h1` is replaced by a slot of the same
time under an identity that the stored snapshot does not have, and no fetched
slot is at the preferred time. The cycle is not reported as a change:
`hashOfExact` returns `""`, the snapshot has an entry under `""`, `onePoll`
returns `found = true`, the callback is called with `exactMatch = true`, no
alternatives event carries the new slot, and `StartMonitor` returns `nil`. -/
theorem StartMonitor_replaced_identity_empty_hash :
    (StartMonitor true "2025-07-04" "18:00" 2 ctxCanceled storedOrder storedOrder
      (.ok ⟨[slotHeld], "tok", 7⟩) []).polls.map PollResult.prev = [mapify [slotHeld]] ∧
    mapLookup (mapify [slotHeld]) "h1" = some slotHeld ∧
    mapLookup (mapify [slotHeld]) "" = none ∧
    mapLookup (mapify [slotAnon]) "" = some slotAnon ∧
    mapLookup (mapify [slotAnon]) "h1" = none ∧
    slotAnon.Time = slotHeld.Time ∧
    (∀ k, k ≠ "h1" → k ≠ "" →
      mapLookup (mapify [slotAnon]) k = mapLookup (mapify [slotHeld]) k) ∧
    (∀ s ∈ [slotAnon], s.Time ≠ "18:00") ∧
    (StartMonitor true "2025-07-04" "18:00" 2 ctxCanceled storedOrder storedOrder
      (.ok ⟨[slotHeld], "tok", 7⟩)
      [Wake.tick storedOrder storedOrder (.ok ⟨[slotAnon], "tok", 7⟩)]).ret = some none ∧
    (StartMonitor true "2025-07-04" "18:00" 2 ctxCanceled storedOrder storedOrder
      (.ok ⟨[slotHeld], "tok", 7⟩)
      [Wake.tick storedOrder storedOrder (.ok ⟨[slotAnon], "tok", 7⟩)]).polls
      = [⟨false, none,
          [⟨false, slotHeld.buildURL "2025-07-04" 2 "tok" 7,
            [altLineOf "2025-07-04" 2 "tok" 7 slotHeld]⟩],
          mapify [slotHeld]⟩,
         ⟨true, none, [⟨true, slotAnon.buildURL "2025-07-04" 2 "tok" 7, []⟩],
          mapify [slotHeld]⟩] := by
  refine ⟨by decide, by decide, by decide, by decide, by decide, by decide, ?_, by decide,
    by decide, by decide⟩
  intro k h1 h2
  have e1 : mapify [slotAnon] = [("", slotAnon)] := by decide
  have e2 : mapify [slotHeld] = [("h1", slotHeld)] := by decide
  rw [e1, e2]
  simp [mapLookup, Ne.symm h1, Ne.symm h2]

theorem onePoll_lookup_none_of_not_found (hasCallback : Bool) (date timePref : String)
    (partySize : Int) (roAdded roRemoved : RangeOrder) (prev : SlotMap) (f : Fetched)
    (hno : (onePoll hasCallback date timePref partySize roAdded roRemoved prev (.ok f)).found
      = false) :
    mapLookup (mapify f.current) (hashOfExact f.current timePref) = none := by
  by_contra hc
  have := (onePoll_found_iff hasCallback date timePref partySize roAdded roRemoved prev f).2 hc
  rw [hno] at this
  exact Bool.noConfusion this

theorem eq_singleton_of_nodup (l : List slotInfo) (a : slotInfo) (hn : l.Nodup)
    (hall : ∀ x ∈ l, x = a) (hmem : a ∈ l) : l = [a] := by
  match l, hn, hall, hmem with
  | [], _, _, hmem => simp at hmem
  | [x], _, hall, _ => rw [hall x (List.mem_singleton_self x)]
  | x :: y :: rest, hn, hall, _ =>
    have hx : x = a := hall x (List.mem_cons_self _ _)
    have hy : y = a := hall y (List.mem_cons_of_mem _ (List.mem_cons_self _ _))
    have hne : x ≠ y := by
      intro e
      have := (List.nodup_cons.1 hn).1
      exact this (e ▸ List.mem_cons_self _ _)
    exact absurd (hx.trans hy.symm) hne

/-- The diff on a replaced identity, outside the exact-match branch. Let the
previous snapshot hold the slot `s1` under identity `h1`, and let the current
snapshot differ from it only in that it holds a slot `s2` under an identity
`h2` absent from the previous one, and nothing under `h1`; whatever the times
of `s1` and `s2`, the same time included: if the cycle is not an exact match
(`onePoll` returns `found = false`), it is a change. `added` is exactly `s2`,
`s1` is in `removed`, a non-nil callback is called once with `exactMatch =
false` and the line of `s2`, and the stored snapshot becomes the current one. -/
theorem onePoll_replaced_identity_changed (hasCallback : Bool) (date timePref : String)
    (partySize : Int) (roAdded roRemoved : RangeOrder)
    (hra : roAdded.Valid) (hrr : roRemoved.Valid) (prev : SlotMap) (f : Fetched)
    (h1 h2 : String) (s1 s2 : slotInfo)
    (hp1 : mapLookup prev h1 = some s1) (hp2 : mapLookup prev h2 = none)
    (hn2 : mapLookup (mapify f.current) h2 = some s2)
    (hn1 : mapLookup (mapify f.current) h1 = none)
    (hsame : ∀ k, k ≠ h1 → k ≠ h2 → mapLookup (mapify f.current) k = mapLookup prev k)
    (hno : (onePoll hasCallback date timePref partySize roAdded roRemoved prev (.ok f)).found
      = false) :
    added roAdded prev (mapify f.current) = [s2] ∧
    s1 ∈ removed roRemoved prev (mapify f.current) ∧
    onePoll hasCallback date timePref partySize roAdded roRemoved prev (.ok f) =
      ⟨false, none,
        if hasCallback then
          [⟨false, s2.buildURL date partySize f.token f.rid,
            [altLineOf date partySize f.token f.rid s2]⟩]
        else [],
        mapify f.current⟩ := by
  have hl := onePoll_lookup_none_of_not_found hasCallback date timePref partySize
    roAdded roRemoved prev f hno
  have hmem2 : s2 ∈ added roAdded prev (mapify f.current) :=
    (mem_added_iff roAdded hra prev _ s2).2 ⟨h2, mem_of_mapLookup _ _ _ hn2, hp2⟩
  have hall : ∀ s ∈ added roAdded prev (mapify f.current), s = s2 := by
    intro s hs
    obtain ⟨k, hm, hn⟩ := (mem_added_iff roAdded hra prev _ s).1 hs
    have hks : mapLookup (mapify f.current) k = some s :=
      mapLookup_of_mem _ (mapify_WF _) k s hm
    have hk1 : k ≠ h1 := by
      intro e; rw [e, hn1] at hks; exact Option.noConfusion hks
    have hk2 : k = h2 := by
      by_contra hk2
      rw [hsame k hk1 hk2, hn] at hks
      exact Option.noConfusion hks
    rw [hk2, hn2] at hks
    exact (Option.some.inj hks).symm
  have hnd : (added roAdded prev (mapify f.current)).Nodup :=
    (added_hashes_nodup roAdded hra prev _ (mapify_WF _) (mapify_Keyed _)).of_map _
  have hA := eq_singleton_of_nodup _ s2 hnd hall hmem2
  have hmem1 : s1 ∈ removed roRemoved prev (mapify f.current) :=
    (mem_removed_iff roRemoved hrr prev _ s1).2 ⟨h1, mem_of_mapLookup _ _ _ hp1, hn1⟩
  refine ⟨hA, hmem1, ?_⟩
  rw [onePoll_diff hasCallback date timePref partySize roAdded roRemoved prev f hl, hA]
  simp

/-- The replacement of `slotOld` by `slotNew`, both at 18:00, next to the
unchanged slot `A`, with the preferred time 20:00. -/
theorem onePoll_replaced_identity_changed_witness :
    added reversedOrder (mapify [slotA, slotOld]) (mapify [slotA, slotNew]) = [slotNew] ∧
    slotOld ∈ removed storedOrder (mapify [slotA, slotOld]) (mapify [slotA, slotNew]) ∧
    onePoll true "2025-07-04" "20:00" 2 reversedOrder storedOrder (mapify [slotA, slotOld])
        (.ok ⟨[slotA, slotNew], "tok", 7⟩) =
      ⟨false, none,
        if true = true then
          [⟨false, slotNew.buildURL "2025-07-04" 2 "tok" 7,
            [altLineOf "2025-07-04" 2 "tok" 7 slotNew]⟩]
        else [],
        mapify [slotA, slotNew]⟩ :=
  onePoll_replaced_identity_changed true "2025-07-04" "20:00" 2 reversedOrder storedOrder
    reversedOrder_valid storedOrder_valid (mapify [slotA, slotOld])
    ⟨[slotA, slotNew], "tok", 7⟩ "h1" "h2" slotOld slotNew
    (by decide) (by decide) (by decide) (by decide)
    (by
      intro k h1 h2
      have e1 : mapify [slotA, slotNew] = [("A", slotA), ("h2", slotNew)] := by decide
      have e2 : mapify [slotA, slotOld] = [("A", slotA), ("h1", slotOld)] := by decide
      show mapLookup (mapify [slotA, slotNew]) k = mapLookup (mapify [slotA, slotOld]) k
      rw [e1, e2]
      simp [mapLookup, Ne.symm h1, Ne.symm h2])
    (by decide)

/-- The diff of a snapshot with itself, outside the exact-match branch: when
the current snapshot holds the same slots under the same identities as the
previous one, and the cycle is not
an exact match (`onePoll` returns `found = false`), the cycle is NoChange:
`added` and `removed` are empty, `onePoll` returns `(false, nil)`, the callback
is not called and the stored snapshot stays. -/
theorem onePoll_same_snapshot_no_change (hasCallback : Bool) (date timePref : String)
    (partySize : Int) (roAdded roRemoved : RangeOrder)
    (hra : roAdded.Valid) (hrr : roRemoved.Valid) (prev : SlotMap) (f : Fetched)
    (hsame : ∀ k, mapLookup prev k = mapLookup (mapify f.current) k)
    (hno : (onePoll hasCallback date timePref partySize roAdded roRemoved prev (.ok f)).found
      = false) :
    added roAdded prev (mapify f.current) = [] ∧
    removed roRemoved prev (mapify f.current) = [] ∧
    onePoll hasCallback date timePref partySize roAdded roRemoved prev (.ok f)
      = ⟨false, none, [], prev⟩ := by
  have hl := onePoll_lookup_none_of_not_found hasCallback date timePref partySize
    roAdded roRemoved prev f hno
  have hA : added roAdded prev (mapify f.current) = [] := by
    rw [added_eq_nil_iff roAdded hra]
    intro k hk
    rw [← mapLookup_isSome_iff] at hk ⊢
    rwa [hsame k]
  have hR : removed roRemoved prev (mapify f.current) = [] := by
    rw [removed_eq_nil_iff roRemoved hrr]
    intro k hk
    rw [← mapLookup_isSome_iff] at hk ⊢
    rwa [← hsame k]
  refine ⟨hA, hR, ?_⟩
  rw [onePoll_diff hasCallback date timePref partySize roAdded roRemoved prev f hl, hA, hR]
  simp

/-- The snapshot `{A@18:30, B@19:00}` twice, fetched in the other order the
second time, with the preferred time 18:00. -/
theorem onePoll_same_snapshot_no_change_witness :
    (∀ k, mapLookup (mapify [slotA, slotB]) k = mapLookup (mapify [slotB, slotA]) k) ∧
    (onePoll true "2025-07-04" "18:00" 2 storedOrder reversedOrder (mapify [slotA, slotB])
      (.ok ⟨[slotB, slotA], "tok", 7⟩)).found = false ∧
    added storedOrder (mapify [slotA, slotB]) (mapify [slotB, slotA]) = [] ∧
    removed reversedOrder (mapify [slotA, slotB]) (mapify [slotB, slotA]) = [] ∧
    onePoll true "2025-07-04" "18:00" 2 storedOrder reversedOrder (mapify [slotA, slotB])
        (.ok ⟨[slotB, slotA], "tok", 7⟩)
      = ⟨false, none, [], mapify [slotA, slotB]⟩ :=
  have hsame : ∀ k, mapLookup (mapify [slotA, slotB]) k = mapLookup (mapify [slotB, slotA]) k := by
    intro k
    have e1 : mapify [slotA, slotB] = [("A", slotA), ("B", slotB)] := by decide
    have e2 : mapify [slotB, slotA] = [("B", slotB), ("A", slotA)] := by decide
    rw [e1, e2]
    by_cases hA : "A" = k
    · subst hA; decide
    · by_cases hB : "B" = k
      · subst hB; decide
      · simp [mapLookup, hA, hB]
  ⟨hsame, by decide,
   onePoll_same_snapshot_no_change true "2025-07-04" "18:00" 2 storedOrder reversedOrder
     storedOrder_valid reversedOrder_valid (mapify [slotA, slotB])
     ⟨[slotB, slotA], "tok", 7⟩ hsame (by decide)⟩

/-- C8. The diff is symmetric-complementary: for all snapshots `P` and `C` and
all orders of the `range` loops, the slots `added` with previous `P` and
current `C` are, up to their order, the slots `removed` with previous `C` and
current `P`, and the slots `removed` with previous `P` and current `C` are, up
to their order, the slots `added` with previous `C` and current `P`. -/
theorem diff_symmetric_complementary (ro1 ro2 ro3 ro4 : RangeOrder)
    (h1 : ro1.Valid) (h2 : ro2.Valid) (h3 : ro3.Valid) (h4 : ro4.Valid) (P C : SlotMap) :
    (added ro1 P C).Perm (removed ro2 C P) ∧ (removed ro3 P C).Perm (added ro4 C P) := by
  constructor
  · exact (((h1 C).trans (h2 C).symm).filter _).map _
  · exact (((h3 P).trans (h4 P).symm).filter _).map _

/-- Snapshots `{A, h1}` and `{A, h2}`, each loop in its own order. -/
theorem diff_symmetric_complementary_witness :
    (added storedOrder (mapify [slotA, slotOld]) (mapify [slotNew, slotA])).Perm
      (removed reversedOrder (mapify [slotNew, slotA]) (mapify [slotA, slotOld])) ∧
    (removed reversedOrder (mapify [slotA, slotOld]) (mapify [slotNew, slotA])).Perm
      (added storedOrder (mapify [slotNew, slotA]) (mapify [slotA, slotOld])) :=
  diff_symmetric_complementary storedOrder reversedOrder reversedOrder storedOrder
    storedOrder_valid reversedOrder_valid reversedOrder_valid storedOrder_valid
    (mapify [slotA, slotOld]) (mapify [slotNew, slotA])

/-! ## The alternatives event -/

/-- C9. Every alternatives event of a poll cycle (a callback call with
`exactMatch = false`) is built from the slice `added` of that cycle, which is
not empty: `reservationURL` is `buildURL(date, partySize, token, rid)` of the
first added slot, the first entry of `alternativeTimes` is the line of that
slot with this very URL in it, `alternativeTimes` is the list of the lines of
the added slots in their order, and so has as many entries as there are added
slots. -/
theorem onePoll_alternatives_event (hasCallback : Bool) (date timePref : String)
    (partySize : Int) (roAdded roRemoved : RangeOrder) (prev : SlotMap) (f : Fetched)
    (ev : Event)
    (hev : ev ∈ (onePoll hasCallback date timePref partySize roAdded roRemoved prev
      (.ok f)).events)
    (hkind : ev.exactMatch = false) :
    ∃ (s0 : slotInfo) (rest : List slotInfo),
      added roAdded prev (mapify f.current) = s0 :: rest ∧
      ev.reservationURL = s0.buildURL date partySize f.token f.rid ∧
      ev.alternativeTimes.head? =
        some (altLine s0.Time (String.intercalate "," s0.Attributes) ev.reservationURL) ∧
      ev.alternativeTimes =
        (added roAdded prev (mapify f.current)).map (altLineOf date partySize f.token f.rid) ∧
      ev.alternativeTimes.length = (added roAdded prev (mapify f.current)).length := by
  cases hl : mapLookup (mapify f.current) (hashOfExact f.current timePref) with
  | some slot =>
    cases hasCallback
    · simp [onePoll, hl] at hev
    · simp only [onePoll, hl, if_true, List.mem_singleton] at hev
      rw [hev] at hkind
      exact Bool.noConfusion hkind
  | none =>
    rw [onePoll_diff hasCallback date timePref partySize roAdded roRemoved prev f hl] at hev
    cases hA : added roAdded prev (mapify f.current) with
    | nil => simp [hA] at hev
    | cons s0 rest =>
      cases hasCallback
      · simp [hA] at hev
      · simp only [hA, if_true, List.mem_singleton] at hev
        subst hev
        exact ⟨s0, rest, rfl, rfl, rfl, rfl, by simp⟩

/-- The first cycle on `{A@18:30, B@19:00}` with the preferred time 18:00, the
`range` loop visiting `B` before `A`. -/
theorem onePoll_alternatives_event_witness :
    sampleAlternatives ∈ (onePoll true "2025-07-04" "18:00" 2 reversedOrder storedOrder []
      (.ok ⟨[slotA, slotB], "tok", 7⟩)).events ∧
    sampleAlternatives.exactMatch = false ∧
    ∃ (s0 : slotInfo) (rest : List slotInfo),
      added reversedOrder [] (mapify [slotA, slotB]) = s0 :: rest ∧
      sampleAlternatives.reservationURL = s0.buildURL "2025-07-04" 2 "tok" 7 ∧
      sampleAlternatives.alternativeTimes.head? =
        some (altLine s0.Time (String.intercalate "," s0.Attributes)
          sampleAlternatives.reservationURL) ∧
      sampleAlternatives.alternativeTimes =
        (added reversedOrder [] (mapify [slotA, slotB])).map
          (altLineOf "2025-07-04" 2 "tok" 7) ∧
      sampleAlternatives.alternativeTimes.length
        = (added reversedOrder [] (mapify [slotA, slotB])).length :=
  ⟨by decide, rfl,
   onePoll_alternatives_event true "2025-07-04" "18:00" 2 reversedOrder storedOrder []
     ⟨[slotA, slotB], "tok", 7⟩ sampleAlternatives (by decide) rfl⟩

/-! ## The polling loop -/

theorem onePoll_error (hasCallback : Bool) (date timePref : String) (partySize : Int)
    (roAdded roRemoved : RangeOrder) (prev : SlotMap) (e : GoError) :
    onePoll hasCallback date timePref partySize roAdded roRemoved prev (.error e)
      = ⟨false, some e, [], prev⟩ := rfl

theorem onePoll_err_none (hasCallback : Bool) (date timePref : String) (partySize : Int)
    (roAdded roRemoved : RangeOrder) (prev : SlotMap) (f : Fetched) :
    (onePoll hasCallback date timePref partySize roAdded roRemoved prev (.ok f)).err = none := by
  cases hl : mapLookup (mapify f.current) (hashOfExact f.current timePref) with
  | some slot => simp [onePoll, hl]
  | none => rw [onePoll_diff hasCallback date timePref partySize roAdded roRemoved prev f hl]

/-- A poll cycle that found the exact slot returns a `nil` error. -/
theorem onePoll_found_err (hasCallback : Bool) (date timePref : String) (partySize : Int)
    (roAdded roRemoved : RangeOrder) (prev : SlotMap) (fetch : Except GoError Fetched)
    (h : (onePoll hasCallback date timePref partySize roAdded roRemoved prev fetch).found
      = true) :
    (onePoll hasCallback date timePref partySize roAdded roRemoved prev fetch).err = none := by
  cases fetch with
  | error e => rw [onePoll_error] at h; exact Bool.noConfusion h
  | ok f => exact onePoll_err_none hasCallback date timePref partySize roAdded roRemoved prev f

theorem pollLoop_ret_nil_iff (hasCallback : Bool) (date timePref : String) (partySize : Int)
    (ctxErr : GoError) (prev : SlotMap) (script : List Wake) :
    (pollLoop hasCallback date timePref partySize ctxErr prev script).ret = some none ↔
      ∃ p ∈ (pollLoop hasCallback date timePref partySize ctxErr prev script).polls,
        p.found = true := by
  induction script generalizing prev with
  | nil => simp [pollLoop]
  | cons w rest ih =>
    cases w with
    | done => simp [pollLoop]
    | tick ra rr fetch =>
      by_cases herr :
          (onePoll hasCallback date timePref partySize ra rr prev fetch).err = none
      · by_cases hf :
            (onePoll hasCallback date timePref partySize ra rr prev fetch).found = true
        · simp [pollLoop, herr, hf]
        · simp only [pollLoop, herr, hf, ne_eq, not_true_eq_false, if_false, ih,
            List.mem_cons, exists_eq_or_imp, false_or, Bool.false_eq_true]
      · have hf : ¬ (onePoll hasCallback date timePref partySize ra rr prev fetch).found
            = true := fun h =>
          herr (onePoll_found_err hasCallback date timePref partySize ra rr prev fetch h)
        simp [pollLoop, herr, hf]

theorem pollLoop_fetch_error (hasCallback : Bool) (date timePref : String) (partySize : Int)
    (ctxErr : GoError) (prev : SlotMap) (before after : List Wake)
    (ra rr : RangeOrder) (e : GoError)
    (hwait : (pollLoop hasCallback date timePref partySize ctxErr prev before).ret = none) :
    (pollLoop hasCallback date timePref partySize ctxErr prev
        (before ++ Wake.tick ra rr (.error e) :: after)).ret = some (some e) ∧
    ∃ pv, (pollLoop hasCallback date timePref partySize ctxErr prev
        (before ++ Wake.tick ra rr (.error e) :: after)).polls
      = (pollLoop hasCallback date timePref partySize ctxErr prev before).polls
          ++ [⟨false, some e, [], pv⟩] := by
  induction before generalizing prev with
  | nil => exact ⟨by simp [pollLoop, onePoll_error], prev, by simp [pollLoop, onePoll_error]⟩
  | cons w rest ih =>
    cases w with
    | done => simp [pollLoop] at hwait
    | tick ra1 rr1 fetch =>
      by_cases herr :
          (onePoll hasCallback date timePref partySize ra1 rr1 prev fetch).err = none
      · by_cases hf :
            (onePoll hasCallback date timePref partySize ra1 rr1 prev fetch).found = true
        · simp [pollLoop, herr, hf] at hwait
        · simp only [pollLoop, herr, hf, ne_eq, not_true_eq_false, if_false,
            Bool.false_eq_true] at hwait
          obtain ⟨h1, pv, h2⟩ := ih _ hwait
          refine ⟨?_, pv, ?_⟩
          · simp only [List.cons_append, pollLoop, herr, hf, ne_eq, not_true_eq_false,
              if_false, Bool.false_eq_true]
            exact h1
          · simp only [List.cons_append, pollLoop, herr, hf, ne_eq, not_true_eq_false,
              if_false, Bool.false_eq_true]
            exact congrArg _ h2
      · simp [pollLoop, herr] at hwait

/-- C10. For every run of `StartMonitor`, against any results of the fetches and
any sequence of wake-ups: (1) it returns `nil` if and only if some poll cycle
of the run found an exact match (`onePoll` returned `found = true`); (2) if the
first fetch returns the error `e`, it returns `e`, having run that one cycle
with no callback call; (3) if a later fetch, reached while the run was still
waiting, returns the error `e`, it returns `e` whatever wake-ups would follow,
the cycles of the run being those before that fetch and the failed cycle, in
which no callback call is made: no retry and no further fetch. -/
theorem StartMonitor_return (hasCallback : Bool) (date timePref : String) (partySize : Int)
    (ctxErr : GoError) (roAdded roRemoved : RangeOrder) (fetch : Except GoError Fetched)
    (script : List Wake) :
    ((StartMonitor hasCallback date timePref partySize ctxErr roAdded roRemoved fetch
        script).ret = some none ↔
      ∃ p ∈ (StartMonitor hasCallback date timePref partySize ctxErr roAdded roRemoved fetch
        script).polls, p.found = true) ∧
    (∀ e, fetch = .error e →
      (StartMonitor hasCallback date timePref partySize ctxErr roAdded roRemoved fetch
        script).ret = some (some e) ∧
      (StartMonitor hasCallback date timePref partySize ctxErr roAdded roRemoved fetch
        script).polls = [⟨false, some e, [], []⟩]) ∧
    (∀ (before after : List Wake) (ra rr : RangeOrder) (e : GoError),
      script = before ++ Wake.tick ra rr (.error e) :: after →
      (StartMonitor hasCallback date timePref partySize ctxErr roAdded roRemoved fetch
        before).ret = none →
      (StartMonitor hasCallback date timePref partySize ctxErr roAdded roRemoved fetch
        script).ret = some (some e) ∧
      ∃ pv, (StartMonitor hasCallback date timePref partySize ctxErr roAdded roRemoved fetch
          script).polls
        = (StartMonitor hasCallback date timePref partySize ctxErr roAdded roRemoved fetch
            before).polls ++ [⟨false, some e, [], pv⟩]) := by
  refine ⟨?_, ?_, ?_⟩
  · by_cases herr :
        (onePoll hasCallback date timePref partySize roAdded roRemoved [] fetch).err = none
    · by_cases hf :
          (onePoll hasCallback date timePref partySize roAdded roRemoved [] fetch).found = true
      · simp [StartMonitor, herr, hf]
      · simp only [StartMonitor, herr, hf, ne_eq, not_true_eq_false, false_or, if_false,
          pollLoop_ret_nil_iff, List.mem_cons, exists_eq_or_imp, Bool.false_eq_true]
    · have hf : ¬ (onePoll hasCallback date timePref partySize roAdded roRemoved [] fetch).found
          = true := fun h =>
        herr (onePoll_found_err hasCallback date timePref partySize roAdded roRemoved [] fetch h)
      simp [StartMonitor, herr, hf]
  · intro e he
    subst he
    simp [StartMonitor, onePoll_error]
  · intro before after ra rr e hs hwait
    subst hs
    by_cases herr :
        (onePoll hasCallback date timePref partySize roAdded roRemoved [] fetch).err = none
    · by_cases hf :
          (onePoll hasCallback date timePref partySize roAdded roRemoved [] fetch).found = true
      · simp [StartMonitor, herr, hf] at hwait
      · simp only [StartMonitor, herr, hf, ne_eq, not_true_eq_false, false_or, if_false,
          Bool.false_eq_true] at hwait ⊢
        obtain ⟨h1, pv, h2⟩ := pollLoop_fetch_error hasCallback date timePref partySize ctxErr
          _ before after ra rr e hwait
        exact ⟨h1, pv, congrArg _ h2⟩
    · simp [StartMonitor, herr] at hwait

/-- A run whose first cycle sees `{A@18:30}`, whose second cycle sees
`{A@18:30, B@19:00}` and whose third fetch fails; a cancellation and a further
tick would follow. -/
theorem StartMonitor_return_witness :
    (StartMonitor true "2025-07-04" "18:00" 2 ctxCanceled storedOrder storedOrder
      (.ok ⟨[slotA], "tok", 7⟩)
      [Wake.tick storedOrder storedOrder (.ok ⟨[slotA, slotB], "tok", 7⟩)]).ret = none ∧
    (StartMonitor true "2025-07-04" "18:00" 2 ctxCanceled storedOrder storedOrder
      (.ok ⟨[slotA], "tok", 7⟩)
      ([Wake.tick storedOrder storedOrder (.ok ⟨[slotA, slotB], "tok", 7⟩)] ++
        Wake.tick storedOrder storedOrder (.error fetchFailed) ::
          [Wake.done, Wake.tick storedOrder storedOrder (.ok ⟨[slotEarly], "tok", 7⟩)])).ret
      = some (some fetchFailed) ∧
    ∃ pv, (StartMonitor true "2025-07-04" "18:00" 2 ctxCanceled storedOrder storedOrder
      (.ok ⟨[slotA], "tok", 7⟩)
      ([Wake.tick storedOrder storedOrder (.ok ⟨[slotA, slotB], "tok", 7⟩)] ++
        Wake.tick storedOrder storedOrder (.error fetchFailed) ::
          [Wake.done, Wake.tick storedOrder storedOrder (.ok ⟨[slotEarly], "tok", 7⟩)])).polls
      = (StartMonitor true "2025-07-04" "18:00" 2 ctxCanceled storedOrder storedOrder
          (.ok ⟨[slotA], "tok", 7⟩)
          [Wake.tick storedOrder storedOrder (.ok ⟨[slotA, slotB], "tok", 7⟩)]).polls
        ++ [⟨false, some fetchFailed, [], pv⟩] :=
  ⟨by decide,
   (StartMonitor_return true "2025-07-04" "18:00" 2 ctxCanceled storedOrder storedOrder
      (.ok ⟨[slotA], "tok", 7⟩)
      ([Wake.tick storedOrder storedOrder (.ok ⟨[slotA, slotB], "tok", 7⟩)] ++
        Wake.tick storedOrder storedOrder (.error fetchFailed) ::
          [Wake.done, Wake.tick storedOrder storedOrder (.ok ⟨[slotEarly], "tok", 7⟩)])).2.2
      [Wake.tick storedOrder storedOrder (.ok ⟨[slotA, slotB], "tok", 7⟩)]
      [Wake.done, Wake.tick storedOrder storedOrder (.ok ⟨[slotEarly], "tok", 7⟩)]
      storedOrder storedOrder fetchFailed rfl (by decide)⟩

/-! ## Cancellation -/

theorem pollLoop_done (hasCallback : Bool) (date timePref : String) (partySize : Int)
    (ctxErr : GoError) (prev : SlotMap) (before after : List Wake)
    (hwait : (pollLoop hasCallback date timePref partySize ctxErr prev before).ret = none) :
    (pollLoop hasCallback date timePref partySize ctxErr prev
        (before ++ Wake.done :: after)).ret = some (some ctxErr) ∧
    (pollLoop hasCallback date timePref partySize ctxErr prev
        (before ++ Wake.done :: after)).polls
      = (pollLoop hasCallback date timePref partySize ctxErr prev before).polls := by
  induction before generalizing prev with
  | nil => simp [pollLoop]
  | cons w rest ih =>
    cases w with
    | done => simp [pollLoop] at hwait
    | tick ra1 rr1 fetch =>
      by_cases herr :
          (onePoll hasCallback date timePref partySize ra1 rr1 prev fetch).err = none
      · by_cases hf :
            (onePoll hasCallback date timePref partySize ra1 rr1 prev fetch).found = true
        · simp [pollLoop, herr, hf] at hwait
        · simp only [pollLoop, herr, hf, ne_eq, not_true_eq_false, if_false,
            Bool.false_eq_true] at hwait
          obtain ⟨h1, h2⟩ := ih _ hwait
          refine ⟨?_, ?_⟩
          · simp only [List.cons_append, pollLoop, herr, hf, ne_eq, not_true_eq_false,
              if_false, Bool.false_eq_true]
            exact h1
          · simp only [List.cons_append, pollLoop, herr, hf, ne_eq, not_true_eq_false,
              if_false, Bool.false_eq_true]
            exact congrArg _ h2
      · simp [pollLoop, herr] at hwait

/-- C11 (as stated, refuted). Cancellation is raised before `StartMonitor`
starts: the context is done from the first `select` on, and the first fetch,
run on the cancelled context, fails. `StartMonitor` has performed one fetch,
and what it returns is the error of that fetch, not `ctx.Err()`. -/
theorem StartMonitor_cancelled_at_start_fetches :
    (StartMonitor true "2025-07-04" "18:00" 2 ctxCanceled storedOrder storedOrder
      (.error fetchCanceled) [Wake.done]).polls.length = 1 ∧
    (StartMonitor true "2025-07-04" "18:00" 2 ctxCanceled storedOrder storedOrder
      (.error fetchCanceled) [Wake.done]).ret = some (some fetchCanceled) ∧
    fetchCanceled ≠ ctxCanceled := by
  decide

/-- C11 (amended). `StartMonitor` always performs its first poll, whatever the
state of the context: the poll cycles of every run start with the cycle on the
first fetch. Cancellation is observed in the `select` only: when a run that is
still waiting receives the closing of `ctx.Done()`, `StartMonitor` returns
`ctx.Err()`, and the poll cycles of the run are those made before, so that no
fetch is started and no callback call made after it. When the first fetch
fails, `StartMonitor` returns the error of that fetch, that cycle being the
only one and without callback call. -/
theorem StartMonitor_cancellation (hasCallback : Bool) (date timePref : String)
    (partySize : Int) (ctxErr : GoError) (roAdded roRemoved : RangeOrder)
    (fetch : Except GoError Fetched) (script : List Wake) :
    (StartMonitor hasCallback date timePref partySize ctxErr roAdded roRemoved fetch
        script).polls.head?
      = some (onePoll hasCallback date timePref partySize roAdded roRemoved [] fetch) ∧
    (∀ (before after : List Wake), script = before ++ Wake.done :: after →
      (StartMonitor hasCallback date timePref partySize ctxErr roAdded roRemoved fetch
        before).ret = none →
      (StartMonitor hasCallback date timePref partySize ctxErr roAdded roRemoved fetch
        script).ret = some (some ctxErr) ∧
      (StartMonitor hasCallback date timePref partySize ctxErr roAdded roRemoved fetch
        script).polls
        = (StartMonitor hasCallback date timePref partySize ctxErr roAdded roRemoved fetch
            before).polls) ∧
    (∀ e, fetch = .error e →
      (StartMonitor hasCallback date timePref partySize ctxErr roAdded roRemoved fetch
        script).ret = some (some e) ∧
      (StartMonitor hasCallback date timePref partySize ctxErr roAdded roRemoved fetch
        script).polls = [⟨false, some e, [], []⟩]) := by
  refine ⟨?_, ?_, ?_⟩
  · by_cases h : (onePoll hasCallback date timePref partySize roAdded roRemoved [] fetch).err
        ≠ none ∨
        (onePoll hasCallback date timePref partySize roAdded roRemoved [] fetch).found = true
    · simp [StartMonitor, h]
    · simp [StartMonitor, h]
  · intro before after hs hwait
    subst hs
    by_cases herr :
        (onePoll hasCallback date timePref partySize roAdded roRemoved [] fetch).err = none
    · by_cases hf :
          (onePoll hasCallback date timePref partySize roAdded roRemoved [] fetch).found = true
      · simp [StartMonitor, herr, hf] at hwait
      · simp only [StartMonitor, herr, hf, ne_eq, not_true_eq_false, false_or, if_false,
          Bool.false_eq_true] at hwait ⊢
        obtain ⟨h1, h2⟩ := pollLoop_done hasCallback date timePref partySize ctxErr
          _ before after hwait
        exact ⟨h1, congrArg _ h2⟩
    · simp [StartMonitor, herr] at hwait
  · intro e he
    subst he
    simp [StartMonitor, onePoll_error]

/-- A run whose first cycle sees `{A@18:30}` and whose `select` then receives
the cancellation; a tick with the exact slot would follow. -/
theorem StartMonitor_cancellation_witness :
    (StartMonitor true "2025-07-04" "18:00" 2 ctxCanceled storedOrder storedOrder
      (.ok ⟨[slotA], "tok", 7⟩) []).ret = none ∧
    (StartMonitor true "2025-07-04" "18:00" 2 ctxCanceled storedOrder storedOrder
      (.ok ⟨[slotA], "tok", 7⟩)
      ([] ++ Wake.done ::
        [Wake.tick storedOrder storedOrder (.ok ⟨[slotEarly], "tok", 7⟩)])).ret
      = some (some ctxCanceled) ∧
    (StartMonitor true "2025-07-04" "18:00" 2 ctxCanceled storedOrder storedOrder
      (.ok ⟨[slotA], "tok", 7⟩)
      ([] ++ Wake.done ::
        [Wake.tick storedOrder storedOrder (.ok ⟨[slotEarly], "tok", 7⟩)])).polls
      = (StartMonitor true "2025-07-04" "18:00" 2 ctxCanceled storedOrder storedOrder
          (.ok ⟨[slotA], "tok", 7⟩) []).polls :=
  ⟨by decide,
   (StartMonitor_cancellation true "2025-07-04" "18:00" 2 ctxCanceled storedOrder storedOrder
      (.ok ⟨[slotA], "tok", 7⟩)
      ([] ++ Wake.done ::
        [Wake.tick storedOrder storedOrder (.ok ⟨[slotEarly], "tok", 7⟩)])).2.1
      [] [Wake.tick storedOrder storedOrder (.ok ⟨[slotEarly], "tok", 7⟩)] rfl (by decide)⟩

/-! ## The exact-match event ends the run -/

theorem onePoll_events_length (hasCallback : Bool) (date timePref : String) (partySize : Int)
    (roAdded roRemoved : RangeOrder) (prev : SlotMap) (fetch : Except GoError Fetched) :
    (onePoll hasCallback date timePref partySize roAdded roRemoved prev fetch).events.length
      ≤ 1 := by
  cases fetch with
  | error e => simp [onePoll_error]
  | ok f =>
    cases hl : mapLookup (mapify f.current) (hashOfExact f.current timePref) with
    | some slot => cases hasCallback <;> simp [onePoll, hl]
    | none =>
      rw [onePoll_diff hasCallback date timePref partySize roAdded roRemoved prev f hl]
      cases added roAdded prev (mapify f.current) with
      | nil => simp
      | cons a as => cases hasCallback <;> simp

theorem onePoll_events_not_exact (hasCallback : Bool) (date timePref : String)
    (partySize : Int) (roAdded roRemoved : RangeOrder) (prev : SlotMap)
    (fetch : Except GoError Fetched)
    (hf : ¬ (onePoll hasCallback date timePref partySize roAdded roRemoved prev fetch).found
      = true) :
    ∀ ev ∈ (onePoll hasCallback date timePref partySize roAdded roRemoved prev fetch).events,
      ev.exactMatch = false := by
  cases fetch with
  | error e => simp [onePoll_error]
  | ok f =>
    cases hl : mapLookup (mapify f.current) (hashOfExact f.current timePref) with
    | some slot =>
      exact absurd ((onePoll_found_iff hasCallback date timePref partySize roAdded roRemoved
        prev f).2 (by rw [hl]; simp)) hf
    | none =>
      rw [onePoll_diff hasCallback date timePref partySize roAdded roRemoved prev f hl]
      cases added roAdded prev (mapify f.current) with
      | nil => simp
      | cons a as => cases hasCallback <;> simp

theorem pollLoop_exactOnlyLast (hasCallback : Bool) (date timePref : String)
    (partySize : Int) (ctxErr : GoError) (prev : SlotMap) (script : List Wake)
    (p0 : PollResult) (h0 : ∀ ev ∈ p0.events, ev.exactMatch = false)
    (h1 : p0.events.length ≤ 1) :
    ExactOnlyLast
      (p0 :: (pollLoop hasCallback date timePref partySize ctxErr prev script).polls) := by
  induction script generalizing prev p0 with
  | nil => simpa [pollLoop, ExactOnlyLast] using h1
  | cons w rest ih =>
    cases w with
    | done => simpa [pollLoop, ExactOnlyLast] using h1
    | tick ra rr fetch =>
      have hlen := onePoll_events_length hasCallback date timePref partySize ra rr prev fetch
      by_cases herr :
          (onePoll hasCallback date timePref partySize ra rr prev fetch).err = none
      · by_cases hf :
            (onePoll hasCallback date timePref partySize ra rr prev fetch).found = true
        · simp only [pollLoop, herr, hf, ne_eq, not_true_eq_false, if_false, if_true,
            ExactOnlyLast]
          exact ⟨h0, hlen⟩
        · simp only [pollLoop, herr, hf, ne_eq, not_true_eq_false, if_false,
            Bool.false_eq_true, ExactOnlyLast]
          exact ⟨h0, ih _ _ (onePoll_events_not_exact hasCallback date timePref partySize
            ra rr prev fetch hf) hlen⟩
      · simp only [pollLoop, herr, ne_eq, not_false_eq_true, if_true, ExactOnlyLast]
        exact ⟨h0, hlen⟩

theorem StartMonitor_exactOnlyLast (hasCallback : Bool) (date timePref : String)
    (partySize : Int) (ctxErr : GoError) (roAdded roRemoved : RangeOrder)
    (fetch : Except GoError Fetched) (script : List Wake) :
    ExactOnlyLast (StartMonitor hasCallback date timePref partySize ctxErr roAdded roRemoved
      fetch script).polls := by
  have hlen := onePoll_events_length hasCallback date timePref partySize roAdded roRemoved
    [] fetch
  by_cases h : (onePoll hasCallback date timePref partySize roAdded roRemoved [] fetch).err
      ≠ none ∨
      (onePoll hasCallback date timePref partySize roAdded roRemoved [] fetch).found = true
  · simp only [StartMonitor, h, if_true, ExactOnlyLast]
    exact hlen
  · simp only [StartMonitor, h, if_false]
    have hf : ¬ (onePoll hasCallback date timePref partySize roAdded roRemoved [] fetch).found
        = true := fun e => h (Or.inr e)
    exact pollLoop_exactOnlyLast hasCallback date timePref partySize ctxErr _ script _
      (onePoll_events_not_exact hasCallback date timePref partySize roAdded roRemoved [] fetch
        hf) hlen

/-- In a run of the shape `ExactOnlyLast`, a call with `exactMatch = true` is
the last call of the run, and the cycle that made it is the last cycle. -/
theorem exactOnlyLast_last (polls : List PollResult) (h : ExactOnlyLast polls) :
    (∀ (pre : List Event) (ev : Event) (post : List Event),
      runEvents polls = pre ++ ev :: post → ev.exactMatch = true → post = []) ∧
    (∀ (ppre : List PollResult) (p : PollResult) (ppost : List PollResult),
      polls = ppre ++ p :: ppost → (∃ ev ∈ p.events, ev.exactMatch = true) → ppost = []) := by
  induction polls with
  | nil =>
    constructor
    · intro pre ev post he; simp [runEvents] at he
    · intro ppre p ppost he; simp at he
  | cons p0 rest ih =>
    cases rest with
    | nil =>
      constructor
      · intro pre ev post he _
        simp only [runEvents, List.flatMap_cons, List.flatMap_nil, List.append_nil] at he
        simp only [ExactOnlyLast] at h
        rw [he] at h
        simp only [List.length_append, List.length_cons] at h
        exact List.eq_nil_of_length_eq_zero (by omega)
      · intro ppre p ppost he _
        have hl := congrArg List.length he
        simp only [List.length_cons, List.length_nil, List.length_append] at hl
        exact List.eq_nil_of_length_eq_zero (by omega)
    | cons q rest1 =>
      simp only [ExactOnlyLast] at h
      obtain ⟨ihA, ihB⟩ := ih h.2
      constructor
      · intro pre ev post he hx
        have he1 : p0.events ++ runEvents (q :: rest1) = pre ++ ev :: post := by
          simpa [runEvents] using he
        rcases List.append_eq_append_iff.1 he1 with ⟨a1, ha, hb⟩ | ⟨c1, hc, hd⟩
        · exact ihA a1 ev post hb hx
        · cases c1 with
          | nil => exact ihA [] ev post (by simpa using hd.symm) hx
          | cons c cs =>
            simp only [List.cons_append, List.cons.injEq] at hd
            have hmem : ev ∈ p0.events := by
              rw [hc, hd.1]; simp
            have := h.1 ev hmem
            rw [hx] at this
            exact Bool.noConfusion this
      · intro ppre p ppost he hx
        cases ppre with
        | nil =>
          simp only [List.nil_append, List.cons.injEq] at he
          obtain ⟨ev, hmem, hev⟩ := hx
          have := h.1 ev (he.1 ▸ hmem)
          rw [hev] at this
          exact Bool.noConfusion this
        | cons x xs =>
          simp only [List.cons_append, List.cons.injEq] at he
          exact ihB xs p ppost he.2 hx

theorem filter_length_le_one_of_last (l : List Event)
    (h : ∀ (pre : List Event) (ev : Event) (post : List Event),
      l = pre ++ ev :: post → ev.exactMatch = true → post = []) :
    (l.filter (fun ev => ev.exactMatch)).length ≤ 1 := by
  induction l with
  | nil => simp
  | cons x xs ih =>
    by_cases hx : x.exactMatch = true
    · have : xs = [] := h [] x xs rfl hx
      subst this
      simp [hx]
    · have hx1 : x.exactMatch = false := by simpa using hx
      simp only [List.filter_cons, hx1, Bool.false_eq_true, if_false]
      exact ih (fun pre ev post he hev => h (x :: pre) ev post (by simp [he]) hev)

theorem pollLoop_found_of_exact (hasCallback : Bool) (date timePref : String)
    (partySize : Int) (ctxErr : GoError) (prev : SlotMap) (script : List Wake) :
    ∀ p ∈ (pollLoop hasCallback date timePref partySize ctxErr prev script).polls,
      (∃ ev ∈ p.events, ev.exactMatch = true) → p.found = true := by
  induction script generalizing prev with
  | nil => simp [pollLoop]
  | cons w rest ih =>
    cases w with
    | done => simp [pollLoop]
    | tick ra rr fetch =>
      have key : (∃ ev ∈ (onePoll hasCallback date timePref partySize ra rr prev fetch).events,
          ev.exactMatch = true) →
          (onePoll hasCallback date timePref partySize ra rr prev fetch).found = true := by
        rintro ⟨ev, hmem, hev⟩
        by_contra hf
        have := onePoll_events_not_exact hasCallback date timePref partySize ra rr prev fetch
          hf ev hmem
        rw [hev] at this
        exact Bool.noConfusion this
      intro p hp
      by_cases herr :
          (onePoll hasCallback date timePref partySize ra rr prev fetch).err = none
      · by_cases hf :
            (onePoll hasCallback date timePref partySize ra rr prev fetch).found = true
        · simp only [pollLoop, herr, hf, ne_eq, not_true_eq_false, if_false, if_true,
            List.mem_singleton] at hp
          subst hp
          exact key
        · simp only [pollLoop, herr, hf, ne_eq, not_true_eq_false, if_false,
            Bool.false_eq_true, List.mem_cons] at hp
          rcases hp with hp | hp
          · subst hp; exact key
          · exact ih _ p hp
      · simp only [pollLoop, herr, ne_eq, not_false_eq_true, if_true,
          List.mem_singleton] at hp
        subst hp
        exact key

theorem StartMonitor_ret_nil_of_exact (hasCallback : Bool) (date timePref : String)
    (partySize : Int) (ctxErr : GoError) (roAdded roRemoved : RangeOrder)
    (fetch : Except GoError Fetched) (script : List Wake) :
    ∀ p ∈ (StartMonitor hasCallback date timePref partySize ctxErr roAdded roRemoved fetch
        script).polls,
      (∃ ev ∈ p.events, ev.exactMatch = true) →
      (StartMonitor hasCallback date timePref partySize ctxErr roAdded roRemoved fetch
        script).ret = some none := by
  have key : (∃ ev ∈ (onePoll hasCallback date timePref partySize roAdded roRemoved []
      fetch).events, ev.exactMatch = true) →
      (onePoll hasCallback date timePref partySize roAdded roRemoved [] fetch).found = true := by
    rintro ⟨ev, hmem, hev⟩
    by_contra hf
    have := onePoll_events_not_exact hasCallback date timePref partySize roAdded roRemoved []
      fetch hf ev hmem
    rw [hev] at this
    exact Bool.noConfusion this
  intro p hp hx
  by_cases hf :
      (onePoll hasCallback date timePref partySize roAdded roRemoved [] fetch).found = true
  · have herr := onePoll_found_err hasCallback date timePref partySize roAdded roRemoved []
      fetch hf
    simp [StartMonitor, hf, herr]
  · by_cases herr :
        (onePoll hasCallback date timePref partySize roAdded roRemoved [] fetch).err = none
    · simp only [StartMonitor, herr, hf, ne_eq, not_true_eq_false, false_or, if_false,
        Bool.false_eq_true, List.mem_cons] at hp ⊢
      rcases hp with hp | hp
      · subst hp; exact absurd (key hx) hf
      · exact (pollLoop_ret_nil_iff hasCallback date timePref partySize ctxErr _ script).2
          ⟨p, hp, pollLoop_found_of_exact hasCallback date timePref partySize ctxErr _ script
            p hp hx⟩
    · simp only [StartMonitor, herr, ne_eq, not_false_eq_true, true_or, if_true,
        List.mem_singleton] at hp
      subst hp
      exact absurd (key hx) hf

/-- C12. In every run of `StartMonitor`, against any results of the fetches and
any sequence of wake-ups: the callback calls of the run hold at most one call
with `exactMatch = true`; a call with `exactMatch = true` is the last call of
the run; and the poll cycle that made it is the last cycle of the run, so no
fetch follows it, `StartMonitor` returning `nil`. -/
theorem StartMonitor_exact_event_ends_run (hasCallback : Bool) (date timePref : String)
    (partySize : Int) (ctxErr : GoError) (roAdded roRemoved : RangeOrder)
    (fetch : Except GoError Fetched) (script : List Wake) :
    ((runEvents (StartMonitor hasCallback date timePref partySize ctxErr roAdded roRemoved
        fetch script).polls).filter (fun ev => ev.exactMatch)).length ≤ 1 ∧
    (∀ (pre : List Event) (ev : Event) (post : List Event),
      runEvents (StartMonitor hasCallback date timePref partySize ctxErr roAdded roRemoved
        fetch script).polls = pre ++ ev :: post →
      ev.exactMatch = true → post = []) ∧
    (∀ (ppre : List PollResult) (p : PollResult) (ppost : List PollResult),
      (StartMonitor hasCallback date timePref partySize ctxErr roAdded roRemoved
        fetch script).polls = ppre ++ p :: ppost →
      (∃ ev ∈ p.events, ev.exactMatch = true) →
      ppost = [] ∧
      (StartMonitor hasCallback date timePref partySize ctxErr roAdded roRemoved
        fetch script).ret = some none) := by
  have hshape := StartMonitor_exactOnlyLast hasCallback date timePref partySize ctxErr
    roAdded roRemoved fetch script
  obtain ⟨hA, hB⟩ := exactOnlyLast_last _ hshape
  refine ⟨filter_length_le_one_of_last _ hA, hA, ?_⟩
  intro ppre p ppost he hx
  refine ⟨hB ppre p ppost he hx, ?_⟩
  apply StartMonitor_ret_nil_of_exact hasCallback date timePref partySize ctxErr roAdded
    roRemoved fetch script p _ hx
  rw [he]
  simp

/-- A run whose first cycle reports `{A@18:30}` and whose second cycle finds
the slot at 18:00; a further tick would follow. -/
theorem StartMonitor_exact_event_ends_run_witness :
    (StartMonitor true "2025-07-04" "18:00" 2 ctxCanceled storedOrder storedOrder
        (.ok ⟨[slotA], "tok", 7⟩)
        [Wake.tick storedOrder storedOrder (.ok ⟨[slotA, slotEarly], "tok", 7⟩),
          Wake.tick storedOrder storedOrder (.ok ⟨[slotA, slotEarly], "tok", 7⟩)]).polls
      = [onePoll true "2025-07-04" "18:00" 2 storedOrder storedOrder []
          (.ok ⟨[slotA], "tok", 7⟩)] ++
        (onePoll true "2025-07-04" "18:00" 2 storedOrder storedOrder (mapify [slotA])
          (.ok ⟨[slotA, slotEarly], "tok", 7⟩)) :: [] ∧
    (∃ ev ∈ (onePoll true "2025-07-04" "18:00" 2 storedOrder storedOrder (mapify [slotA])
      (.ok ⟨[slotA, slotEarly], "tok", 7⟩)).events, ev.exactMatch = true) ∧
    ([] : List PollResult) = [] ∧
    (StartMonitor true "2025-07-04" "18:00" 2 ctxCanceled storedOrder storedOrder
        (.ok ⟨[slotA], "tok", 7⟩)
        [Wake.tick storedOrder storedOrder (.ok ⟨[slotA, slotEarly], "tok", 7⟩),
          Wake.tick storedOrder storedOrder (.ok ⟨[slotA, slotEarly], "tok", 7⟩)]).ret
      = some none :=
  ⟨by decide, by decide,
   (StartMonitor_exact_event_ends_run true "2025-07-04" "18:00" 2 ctxCanceled storedOrder
      storedOrder (.ok ⟨[slotA], "tok", 7⟩)
      [Wake.tick storedOrder storedOrder (.ok ⟨[slotA, slotEarly], "tok", 7⟩),
        Wake.tick storedOrder storedOrder (.ok ⟨[slotA, slotEarly], "tok", 7⟩)]).2.2
      [onePoll true "2025-07-04" "18:00" 2 storedOrder storedOrder []
        (.ok ⟨[slotA], "tok", 7⟩)]
      (onePoll true "2025-07-04" "18:00" 2 storedOrder storedOrder (mapify [slotA])
        (.ok ⟨[slotA, slotEarly], "tok", 7⟩)) [] (by decide) (by decide)⟩

/-! ## The fetcher: restaurant id -/

/-- C13 (as stated, refuted). The restaurant identifier `abc` is not a decimal
integer, and the service would answer with available slots: `fetchSlots`
returns a non-nil error that names the identifier, not an empty slot list with
a `nil` error. -/
theorem fetchSlots_malformed_id_fails :
    Atoi "abc" = .error .invalidSyntax ∧
    fetchSlots plainQuote "abc" "18:00" (.decoded sampleResponse)
      = .error ⟨"restaurant id " ++ plainQuote "abc" ++ ": strconv.Atoi: parsing "
          ++ plainQuote "abc" ++ ": invalid syntax"⟩ := by
  constructor <;> rfl

/-- C13 (amended). A malformed identifier is an error, not data. For every
restaurant identifier that `strconv.Atoi` rejects, `fetchSlots` returns the
error `restaurant id ...` built from the identifier and the error of `Atoi`,
whatever the network part would come to; for every identifier that `Atoi`
accepts, the result of `fetchSlots` does not depend on the identifier, and
with a decoded response the error is `nil`. -/
theorem fetchSlots_restaurant_id (quote : String → String) (ridStr timePref : String)
    (transport : Transport) :
    (∀ k, Atoi ridStr = .error k →
      fetchSlots quote ridStr timePref transport
        = .error ⟨"restaurant id " ++ quote ridStr ++ ": strconv.Atoi: parsing "
            ++ quote ridStr ++ ": " ++ k.msg⟩) ∧
    (∀ rid, Atoi ridStr = .ok rid →
      (∀ (other : String) (rid2 : Int), Atoi other = .ok rid2 →
        fetchSlots quote ridStr timePref transport
          = fetchSlots quote other timePref transport) ∧
      (∀ api, ∃ f, fetchSlots quote ridStr timePref (.decoded api) = .ok f)) := by
  constructor
  · intro k hk
    simp only [fetchSlots, hk]
  · intro rid hrid
    constructor
    · intro other rid2 h2
      simp only [fetchSlots, hrid, h2]
    · intro api
      cases hA : api.Availability with
      | nil => exact ⟨⟨[], "", 0⟩, by simp only [fetchSlots, hrid, hA]⟩
      | cons ra rest =>
        exact ⟨⟨((ra.AvailabilityDays.flatMap ApiDay.Slots).filter ApiSlot.IsAvailable).map
            (slotOfApi timePref), ra.RestaurantAvailabilityToken, ra.RestaurantID⟩,
          by simp only [fetchSlots, hrid, hA]⟩

/-- The identifier `12x` is rejected, the identifier `1234` accepted. -/
theorem fetchSlots_restaurant_id_witness :
    Atoi "12x" = .error .invalidSyntax ∧
    fetchSlots plainQuote "12x" "18:00" (.decoded sampleResponse)
      = .error ⟨"restaurant id " ++ plainQuote "12x" ++ ": strconv.Atoi: parsing "
          ++ plainQuote "12x" ++ ": " ++ NumErrKind.invalidSyntax.msg⟩ ∧
    Atoi "1234" = .ok 1234 ∧
    ∃ f, fetchSlots plainQuote "1234" "18:00" (.decoded sampleResponse) = .ok f :=
  ⟨rfl,
   (fetchSlots_restaurant_id plainQuote "12x" "18:00" (.decoded sampleResponse)).1
     .invalidSyntax rfl,
   rfl,
   ((fetchSlots_restaurant_id plainQuote "1234" "18:00" (.decoded sampleResponse)).2
     1234 rfl).2 sampleResponse⟩

/-! ## The fetcher: clock times -/

theorem digitVal_digitChar (d : Nat) (h : d < 10) : digitVal (digitChar d) = some d := by
  interval_cases d <;> rfl

theorem wrap64_of_range (x : Int) (h1 : -9223372036854775808 ≤ x)
    (h2 : x ≤ 9223372036854775807) : wrap64 x = x := by
  unfold wrap64; omega

theorem pad2_colon_pad2_data (a b : Nat) :
    (pad2 a ++ ":" ++ pad2 b).data =
      [digitChar (a / 10 % 10), digitChar (a % 10), Char.ofNat 58,
        digitChar (b / 10 % 10), digitChar (b % 10)] := by
  simp only [String.data_append, pad2]
  rfl

/-- The function `time.Parse("15:04", ·)` reads back the hour and the minute of
a zero-padded clock time. -/
theorem parseClock_pad2 (HH MM : Nat) (hH : HH < 24) (hM : MM < 60) :
    parseClock (pad2 HH ++ ":" ++ pad2 MM) = some (HH, MM) := by
  have d1 := digitVal_digitChar (HH / 10 % 10) (by omega)
  have d2 := digitVal_digitChar (HH % 10) (by omega)
  have d3 := digitVal_digitChar (MM / 10 % 10) (by omega)
  have d4 := digitVal_digitChar (MM % 10) (by omega)
  have e1 : HH / 10 % 10 * 10 + HH % 10 = HH := by omega
  have e2 : MM / 10 % 10 * 10 + MM % 10 = MM := by omega
  have c : (Char.ofNat 58).toNat = 58 := rfl
  simp only [parseClock, pad2_colon_pad2_data, d1, d2, d3, d4, e1, e2, c]
  have h1 : ¬ 24 ≤ HH := by omega
  have h2 : ¬ 60 ≤ MM := by omega
  simp [h1, h2]

theorem clock_arith (H M : Nat) (k : Int)
    (hk1 : -153722867 ≤ k) (hk2 : k ≤ 153722867) :
    (((3600 * (H : Int) + 60 * (M : Int) + wrap64 (60000000000 * wrap64 k) / 1000000000)
        % 86400) / 3600).toNat = ((60 * (H : Int) + M + k) % 1440).toNat / 60 ∧
    (((3600 * (H : Int) + 60 * (M : Int) + wrap64 (60000000000 * wrap64 k) / 1000000000)
        % 86400) % 3600 / 60).toNat = ((60 * (H : Int) + M + k) % 1440).toNat % 60 := by
  have e1 : wrap64 k = k := wrap64_of_range k (by omega) (by omega)
  have e2 : wrap64 (60000000000 * k) = 60000000000 * k :=
    wrap64_of_range _ (by omega) (by omega)
  have e3 : (60000000000 * k) / 1000000000 = 60 * k := by omega
  rw [e1, e2, e3]
  have e4 : (3600 * (H : Int) + 60 * (M : Int) + 60 * k) % 86400
      = 60 * ((60 * (H : Int) + M + k) % 1440) := by omega
  rw [e4]
  have ht : 0 ≤ (60 * (H : Int) + M + k) % 1440 ∧ (60 * (H : Int) + M + k) % 1440 < 1440 := by
    omega
  generalize (60 * (H : Int) + M + k) % 1440 = t at *
  omega

theorem slotClock_of_offset (HH MM : Nat) (k : Int) (hH : HH < 24) (hM : MM < 60)
    (hk1 : -153722867 ≤ k) (hk2 : k ≤ 153722867) :
    slotClock (pad2 HH ++ ":" ++ pad2 MM) k =
      pad2 (((60 * (HH : Int) + MM + k) % 1440).toNat / 60) ++ ":" ++
        pad2 (((60 * (HH : Int) + MM + k) % 1440).toNat % 60) := by
  obtain ⟨a1, a2⟩ := clock_arith HH MM k hk1 hk2
  simp only [slotClock, parseClock_pad2 HH MM hH hM, a1, a2]

theorem mem_buildTimes (p : String) (hp : p ∈ buildTimes) :
    ∃ h m : Nat, h < 24 ∧ m < 60 ∧ p = pad2 h ++ ":" ++ pad2 m := by
  simp only [buildTimes, List.mem_flatMap, List.mem_range, List.mem_map, List.mem_cons,
    List.mem_singleton, List.not_mem_nil, or_false] at hp
  obtain ⟨h, hh, m, hm, rfl⟩ := hp
  refine ⟨h, m, hh, ?_, rfl⟩
  rcases hm with rfl | rfl <;> omega

/-- C14 (as stated, refuted). Preferred time 18:00; the service reports an
available slot with the offset 153722868 minutes. The product
`time.Minute * time.Duration(153722868)` does not fit the 64-bit nanosecond
count of a `time.Duration` and wraps: the slot gets the `Time` 18:13, while
`(60*18 + 0 + 153722868) mod 1440` is 1068, that is 17:48. -/
theorem slotClock_wraps_beyond_duration :
    apiSlotFar.TimeOffsetMinutes = 153722868 ∧
    (slotOfApi (pad2 18 ++ ":" ++ pad2 0) apiSlotFar).Time = "18:13" ∧
    pad2 (((60 * ((18 : Nat) : Int) + (0 : Nat) + 153722868) % 1440).toNat / 60) ++ ":" ++
      pad2 (((60 * ((18 : Nat) : Int) + (0 : Nat) + 153722868) % 1440).toNat % 60) = "17:48" := by
  decide

/-- C14 (amended). For every preferred time `HH:MM` with `HH < 24` and
`MM < 60`, and every minute offset `k` reported by the service with
`-153722867 ≤ k ≤ 153722867` (the offsets whose nanoseconds fit a
`time.Duration`), the `Time` of the slot built by `fetchSlots` is the
zero-padded rendering of `(60*HH + MM + k) mod 1440`, across midnight in both
directions; and for each of the values returned by `buildTimes` the offset 0
gives the preferred time itself. -/
theorem slotOfApi_time (HH MM : Nat) (s : ApiSlot) :
    (HH < 24 → MM < 60 →
      -153722867 ≤ s.TimeOffsetMinutes → s.TimeOffsetMinutes ≤ 153722867 →
      (slotOfApi (pad2 HH ++ ":" ++ pad2 MM) s).Time =
        pad2 (((60 * (HH : Int) + MM + s.TimeOffsetMinutes) % 1440).toNat / 60) ++ ":" ++
          pad2 (((60 * (HH : Int) + MM + s.TimeOffsetMinutes) % 1440).toNat % 60)) ∧
    (∀ p ∈ buildTimes, s.TimeOffsetMinutes = 0 → (slotOfApi p s).Time = p) := by
  constructor
  · intro hH hM hk1 hk2
    exact slotClock_of_offset HH MM s.TimeOffsetMinutes hH hM hk1 hk2
  · intro p hp h0
    obtain ⟨h, m, hh, hm, rfl⟩ := mem_buildTimes p hp
    have key := slotClock_of_offset h m 0 hh hm (by omega) (by omega)
    have e1 : ((60 * (h : Int) + m + 0) % 1440).toNat / 60 = h := by omega
    have e2 : ((60 * (h : Int) + m + 0) % 1440).toNat % 60 = m := by omega
    rw [e1, e2] at key
    simp only [slotOfApi, h0]
    exact key

/-- The slot 45 minutes before the preferred time 00:30 is at 23:45, and the
preferred time 18:30 of `buildTimes` comes back at the offset 0. -/
theorem slotOfApi_time_witness :
    (slotOfApi (pad2 0 ++ ":" ++ pad2 30) apiSlotMinus45).Time =
        pad2 (((60 * ((0 : Nat) : Int) + (30 : Nat) + apiSlotMinus45.TimeOffsetMinutes)
          % 1440).toNat / 60) ++ ":" ++
          pad2 (((60 * ((0 : Nat) : Int) + (30 : Nat) + apiSlotMinus45.TimeOffsetMinutes)
            % 1440).toNat % 60) ∧
    (slotOfApi (pad2 0 ++ ":" ++ pad2 30) apiSlotMinus45).Time = "23:45" ∧
    "18:30" ∈ buildTimes ∧
    (slotOfApi "18:30" ⟨true, 0, "h", "Standard", 0, [], false⟩).Time = "18:30" :=
  ⟨(slotOfApi_time 0 30 apiSlotMinus45).1 (by decide) (by decide) (by decide) (by decide),
   by decide, by decide,
   (slotOfApi_time 0 0 ⟨true, 0, "h", "Standard", 0, [], false⟩).2 "18:30" (by decide) rfl⟩

/-! ## The reservation link -/

theorem escape_timestamp_char (c : Char)
    (hc : (48 ≤ c.toNat ∧ c.toNat ≤ 57) ∨ c.toNat = 45 ∨ c.toNat = 58) :
    (utf8Bytes c).flatMap escapeByte = if c.toNat = 58 then "%3A".data else [c] := by
  have hlt : c.toNat < 128 := by omega
  have hb : utf8Bytes c = [c.toNat] := by simp [utf8Bytes, hlt]
  rw [hb]
  simp only [List.flatMap_cons, List.flatMap_nil, List.append_nil]
  rcases hc with ⟨h1, h2⟩ | h | h
  · have hne : ¬ c.toNat = 58 := by omega
    have hs : shouldEscape c.toNat = false := by
      simp only [shouldEscape]
      rw [if_pos (Or.inr (Or.inr ⟨h1, h2⟩))]
    simp only [escapeByte, hs, hne, if_false, Char.ofNat_toNat, Bool.false_eq_true]
  · have hne : ¬ c.toNat = 58 := by omega
    have hs : shouldEscape c.toNat = false := by rw [h]; rfl
    simp only [escapeByte, hs, hne, if_false, Char.ofNat_toNat, Bool.false_eq_true]
  · rw [h]
    rfl

theorem escape_timestamp_chars (cs : List Char)
    (hcs : ∀ c ∈ cs, (48 ≤ c.toNat ∧ c.toNat ≤ 57) ∨ c.toNat = 45 ∨ c.toNat = 58) :
    (cs.flatMap utf8Bytes).flatMap escapeByte
      = cs.flatMap (fun c => if c.toNat = 58 then "%3A".data else [c]) := by
  induction cs with
  | nil => rfl
  | cons c rest ih =>
    simp only [List.flatMap_cons, List.flatMap_append]
    rw [escape_timestamp_char c (hcs c (List.mem_cons_self _ _)),
      ih (fun x hx => hcs x (List.mem_cons_of_mem _ hx))]

theorem queryEscape_timestamp (date time : String) (hd : TimestampChars date)
    (ht : TimestampChars time) :
    queryEscape (date ++ "T" ++ time ++ ":00")
      = colonEscape date ++ "T" ++ colonEscape time ++ "%3A00" := by
  apply String.ext
  simp only [queryEscape, colonEscape, String.data_append, List.flatMap_append]
  rw [escape_timestamp_chars date.data hd, escape_timestamp_chars time.data ht]
  rfl

theorem colonEscape_of_no_colon (s : String) (h : ∀ c ∈ s.data, c.toNat ≠ 58) :
    colonEscape s = s := by
  apply String.ext
  simp only [colonEscape]
  have : ∀ cs : List Char, (∀ c ∈ cs, c.toNat ≠ 58) →
      cs.flatMap (fun c => if c.toNat = 58 then "%3A".data else [c]) = cs := by
    intro cs hcs
    induction cs with
    | nil => rfl
    | cons c rest ih =>
      simp only [List.flatMap_cons, hcs c (List.mem_cons_self _ _), if_false]
      rw [ih (fun x hx => hcs x (List.mem_cons_of_mem _ hx))]
      rfl
  exact this s.data h

theorem colonEscape_append (a b : String) :
    colonEscape (a ++ b) = colonEscape a ++ colonEscape b := by
  apply String.ext
  simp [colonEscape, String.data_append, List.flatMap_append]

theorem TimestampChars_of_DateChars (s : String) (h : DateChars s) : TimestampChars s := by
  intro c hc
  rcases h c hc with h1 | h1
  · exact Or.inl h1
  · exact Or.inr (Or.inl h1)

theorem TimestampChars_clock (hh mm : String) (h1 : DateChars hh) (h2 : DateChars mm) :
    TimestampChars (hh ++ ":" ++ mm) := by
  intro c hc
  simp only [String.data_append, List.mem_append] at hc
  rcases hc with (hc | hc) | hc
  · exact TimestampChars_of_DateChars hh h1 c hc
  · have : c = Char.ofNat 58 := List.mem_singleton.1 hc
    subst this
    exact Or.inr (Or.inr rfl)
  · exact TimestampChars_of_DateChars mm h2 c hc

theorem colonEscape_clock (hh mm : String) (h1 : DateChars hh) (h2 : DateChars mm) :
    colonEscape (hh ++ ":" ++ mm) = hh ++ "%3A" ++ mm := by
  have n1 : ∀ c ∈ hh.data, c.toNat ≠ 58 := by
    intro c hc; rcases h1 c hc with h | h <;> omega
  have n2 : ∀ c ∈ mm.data, c.toNat ≠ 58 := by
    intro c hc; rcases h2 c hc with h | h <;> omega
  rw [colonEscape_append, colonEscape_append, colonEscape_of_no_colon hh n1,
    colonEscape_of_no_colon mm n2]
  rfl

/-- C15. The reservation link is a function of the slot, the date, the party
size, the token and the restaurant id alone. For a date and a slot `Time` made
of digits, `-` and `:` only, it is the fixed template with the timestamp
`date + "T" + Time + ":00"` percent-encoded (every `:` as `%3A`) and every
other field put in as it is; for a date of digits and `-` and a `Time` of the
form `HH:MM` this is `dateTime=<date>T<HH>%3A<MM>%3A00`. Two slots that differ
only in `Attributes` have the same link. -/
theorem buildURL_template (s : slotInfo) (date : String) (party : Int) (token : String)
    (rid : Int) :
    (TimestampChars date → TimestampChars s.Time →
      s.buildURL date party token rid =
        "https://www.opentable.ca/booking/details?availabilityToken=" ++ token
          ++ "&dateTime=" ++ (colonEscape date ++ "T" ++ colonEscape s.Time ++ "%3A00")
          ++ "&partySize=" ++ fmtInt party
          ++ "&points=" ++ fmtInt s.PointsValue
          ++ "&pointsType=" ++ s.PointsType
          ++ "&rid=" ++ fmtInt rid
          ++ "&slotHash=" ++ s.SlotHash
          ++ "&isModify=false&isMandatory=" ++ fmtBool s.IsMandatory
          ++ "&cfe=true") ∧
    (∀ hh mm : String, DateChars date → DateChars hh → DateChars mm →
      s.Time = hh ++ ":" ++ mm →
      s.buildURL date party token rid =
        "https://www.opentable.ca/booking/details?availabilityToken=" ++ token
          ++ "&dateTime=" ++ (date ++ "T" ++ (hh ++ "%3A" ++ mm) ++ "%3A00")
          ++ "&partySize=" ++ fmtInt party
          ++ "&points=" ++ fmtInt s.PointsValue
          ++ "&pointsType=" ++ s.PointsType
          ++ "&rid=" ++ fmtInt rid
          ++ "&slotHash=" ++ s.SlotHash
          ++ "&isModify=false&isMandatory=" ++ fmtBool s.IsMandatory
          ++ "&cfe=true") ∧
    (∀ attrs : List String,
      ({ s with Attributes := attrs } : slotInfo).buildURL date party token rid
        = s.buildURL date party token rid) := by
  refine ⟨?_, ?_, ?_⟩
  · intro hd ht
    simp only [slotInfo.buildURL, queryEscape_timestamp date s.Time hd ht]
  · intro hh mm hd h1 h2 htime
    have hd1 : ∀ c ∈ date.data, c.toNat ≠ 58 := by
      intro c hc; rcases hd c hc with h | h <;> omega
    have ht : TimestampChars s.Time := htime ▸ TimestampChars_clock hh mm h1 h2
    simp only [slotInfo.buildURL,
      queryEscape_timestamp date s.Time (TimestampChars_of_DateChars date hd) ht,
      colonEscape_of_no_colon date hd1]
    rw [htime, colonEscape_clock hh mm h1 h2]
  · intro attrs
    rfl

/-- The link of the slot `A` at 18:30 on 2025-07-04, and of the same slot with
other attributes. -/
theorem buildURL_template_witness :
    DateChars "2025-07-04" ∧ DateChars "18" ∧ DateChars "30" ∧
    slotA.buildURL "2025-07-04" 2 "tok" 7 =
      "https://www.opentable.ca/booking/details?availabilityToken=" ++ "tok"
        ++ "&dateTime=" ++ ("2025-07-04" ++ "T" ++ ("18" ++ "%3A" ++ "30") ++ "%3A00")
        ++ "&partySize=" ++ fmtInt 2
        ++ "&points=" ++ fmtInt slotA.PointsValue
        ++ "&pointsType=" ++ slotA.PointsType
        ++ "&rid=" ++ fmtInt 7
        ++ "&slotHash=" ++ slotA.SlotHash
        ++ "&isModify=false&isMandatory=" ++ fmtBool slotA.IsMandatory
        ++ "&cfe=true" ∧
    slotA.buildURL "2025-07-04" 2 "tok" 7 =
      "https://www.opentable.ca/booking/details?availabilityToken=tok&dateTime=2025-07-04T18%3A30%3A00&partySize=2&points=0&pointsType=Standard&rid=7&slotHash=A&isModify=false&isMandatory=false&cfe=true" :=
  ⟨by decide, by decide, by decide,
   (buildURL_template slotA "2025-07-04" 2 "tok" 7).2.1 "18" "30" (by decide) (by decide)
     (by decide) rfl,
   by decide⟩

/-! ## The fetcher: decoded response -/

/-- C16. For a restaurant id that `Atoi` accepts and a decoded response: when
the response has no availability entry, `fetchSlots` returns an empty slot
list, an empty token, the id 0 and a `nil` error; otherwise it returns, with a
`nil` error, the token and the restaurant id of the first availability entry
and one slot for each entry of it that is flagged available, over all its days
and in the order of the response, each slot carrying the `slotHash`,
`pointsType`, `pointsValue`, `attributes` and `isMandatory` of its entry
unchanged, and as `Time` the clock time of its offset. -/
theorem fetchSlots_decoded (quote : String → String) (ridStr timePref : String)
    (api : ApiResponse) (rid : Int) (hrid : Atoi ridStr = .ok rid) :
    (api.Availability = [] →
      fetchSlots quote ridStr timePref (.decoded api) = .ok ⟨[], "", 0⟩) ∧
    (∀ (ra : ApiAvailability) (rest : List ApiAvailability), api.Availability = ra :: rest →
      ∃ slots : List slotInfo,
        fetchSlots quote ridStr timePref (.decoded api)
          = .ok ⟨slots, ra.RestaurantAvailabilityToken, ra.RestaurantID⟩ ∧
        slots.length = (availableEntries ra).length ∧
        slots.map (fun s => (s.SlotHash, s.PointsType, s.PointsValue, s.Attributes,
            s.IsMandatory))
          = (availableEntries ra).map (fun a => (a.SlotHash, a.PointsType, a.PointsValue,
              a.Attributes, a.IsMandatory)) ∧
        slots.map slotInfo.Time
          = (availableEntries ra).map (fun a => slotClock timePref a.TimeOffsetMinutes)) := by
  constructor
  · intro hA
    simp only [fetchSlots, hrid, hA]
  · intro ra rest hA
    refine ⟨(availableEntries ra).map (slotOfApi timePref), ?_, ?_, ?_, ?_⟩
    · simp only [fetchSlots, hrid, hA, availableEntries]
    · simp
    · simp [List.map_map, Function.comp_def, slotOfApi]
    · simp [List.map_map, Function.comp_def, slotOfApi]

/-- The sample response: of the first availability entry the two available
entries become slots, at 18:30 and 17:15 for the preferred time 18:00; the
entry that is not available and the second availability entry give none. -/
theorem fetchSlots_decoded_witness :
    Atoi "1234" = .ok 1234 ∧
    availableEntries ⟨1234, "tok", [⟨[apiSlotPlus30, apiSlotTaken]⟩, ⟨[apiSlotMinus45]⟩]⟩
      = [apiSlotPlus30, apiSlotMinus45] ∧
    ∃ slots : List slotInfo,
      fetchSlots plainQuote "1234" "18:00" (.decoded sampleResponse)
        = .ok ⟨slots, "tok", 1234⟩ ∧
      slots.length
        = (availableEntries
            ⟨1234, "tok", [⟨[apiSlotPlus30, apiSlotTaken]⟩, ⟨[apiSlotMinus45]⟩]⟩).length ∧
      slots.map (fun s => (s.SlotHash, s.PointsType, s.PointsValue, s.Attributes,
          s.IsMandatory))
        = (availableEntries
            ⟨1234, "tok", [⟨[apiSlotPlus30, apiSlotTaken]⟩, ⟨[apiSlotMinus45]⟩]⟩).map
            (fun a => (a.SlotHash, a.PointsType, a.PointsValue, a.Attributes,
              a.IsMandatory)) ∧
      slots.map slotInfo.Time
        = (availableEntries
            ⟨1234, "tok", [⟨[apiSlotPlus30, apiSlotTaken]⟩, ⟨[apiSlotMinus45]⟩]⟩).map
            (fun a => slotClock "18:00" a.TimeOffsetMinutes) :=
  ⟨rfl, by decide,
   (fetchSlots_decoded plainQuote "1234" "18:00" sampleResponse 1234 rfl).2
     ⟨1234, "tok", [⟨[apiSlotPlus30, apiSlotTaken]⟩, ⟨[apiSlotMinus45]⟩]⟩
     [⟨99, "other", [⟨[apiSlotFar]⟩]⟩] rfl⟩

/-! ## The stored snapshot -/

/-- C17 (the code at the failing input). Preferred time 18:00. The first cycle
fetches the slot `A`; the second cycle fetches a slot with the same identity
`A` and other points, attributes and `IsMandatory`. Both cycles succeed and the
run goes on. The second cycle adds and removes no identity, so `onePoll`
returns before `prev = now`: the stored snapshot still maps `A` to the slot of
the first fetch, not to the slot just fetched. -/
theorem StartMonitor_no_change_keeps_stale_slot :
    (StartMonitor true "2025-07-04" "18:00" 2 ctxCanceled storedOrder storedOrder
      (.ok ⟨[slotA], "tok", 7⟩)
      [Wake.tick storedOrder storedOrder (.ok ⟨[slotARepriced], "tok", 7⟩)]).ret = none ∧
    (StartMonitor true "2025-07-04" "18:00" 2 ctxCanceled storedOrder storedOrder
      (.ok ⟨[slotA], "tok", 7⟩)
      [Wake.tick storedOrder storedOrder (.ok ⟨[slotARepriced], "tok", 7⟩)]).polls
      = [⟨false, none, [sampleFirstReport], mapify [slotA]⟩,
         ⟨false, none, [], mapify [slotA]⟩] ∧
    mapLookup (mapify [slotA]) "A" = some slotA ∧
    mapLookup (mapify [slotARepriced]) "A" = some slotARepriced ∧
    slotA ≠ slotARepriced := by
  decide

/-! ## The alternatives message -/

theorem timesText_short (alternativeTimes : List (List Nat))
    (h : (joinBytes alternativeTimes [10]).length ≤ 1000) :
    timesText alternativeTimes = joinBytes alternativeTimes [10] := by
  have : ¬ (joinBytes alternativeTimes [10]).length > 1000 := by omega
  simp only [timesText, this, if_false]

theorem timesText_long (alternativeTimes : List (List Nat))
    (h : 1000 < (joinBytes alternativeTimes [10]).length) :
    timesText alternativeTimes = (joinBytes alternativeTimes [10]).take 997 ++ [46, 46, 46] := by
  have : (joinBytes alternativeTimes [10]).length > 1000 := h
  simp only [timesText, this, if_true]

/-- C18. For every list of alternative descriptions, the value of the field
`Available Times` is at most 1000 bytes long: it is the newline-joined list
itself when that text has at most 1000 bytes, and otherwise the first 997
bytes of that text followed by three dots, 1000 bytes in all. -/
theorem timesText_at_most_1000 (alternativeTimes : List (List Nat)) :
    (timesText alternativeTimes).length ≤ 1000 ∧
    ((joinBytes alternativeTimes [10]).length ≤ 1000 →
      timesText alternativeTimes = joinBytes alternativeTimes [10]) ∧
    (1000 < (joinBytes alternativeTimes [10]).length →
      timesText alternativeTimes
        = (joinBytes alternativeTimes [10]).take 997 ++ [46, 46, 46] ∧
      (timesText alternativeTimes).length = 1000) := by
  have hlong : 1000 < (joinBytes alternativeTimes [10]).length →
      (timesText alternativeTimes).length = 1000 := by
    intro h
    rw [timesText_long alternativeTimes h]
    simp only [List.length_append, List.length_take, List.length_cons, List.length_nil]
    omega
  refine ⟨?_, timesText_short alternativeTimes, fun h =>
    ⟨timesText_long alternativeTimes h, hlong h⟩⟩
  by_cases h : (joinBytes alternativeTimes [10]).length ≤ 1000
  · rw [timesText_short alternativeTimes h]; exact h
  · exact le_of_eq (hlong (by omega))

/-- Two long descriptions, 1201 bytes when joined, and two short ones. -/
theorem timesText_at_most_1000_witness :
    1000 < (joinBytes [List.replicate 600 65, List.replicate 600 66] [10]).length ∧
    (timesText [List.replicate 600 65, List.replicate 600 66]
        = (joinBytes [List.replicate 600 65, List.replicate 600 66] [10]).take 997
            ++ [46, 46, 46] ∧
      (timesText [List.replicate 600 65, List.replicate 600 66]).length = 1000) ∧
    (joinBytes [[65, 66], [67]] [10]).length ≤ 1000 ∧
    timesText [[65, 66], [67]] = joinBytes [[65, 66], [67]] [10] ∧
    timesText [[65, 66], [67]] = [65, 66, 10, 67] :=
  have hlen : 1000 < (joinBytes [List.replicate 600 65, List.replicate 600 66] [10]).length := by
    simp [joinBytes]
  ⟨hlen,
   (timesText_at_most_1000 [List.replicate 600 65, List.replicate 600 66]).2.2 hlen,
   by decide,
   (timesText_at_most_1000 [[65, 66], [67]]).2.1 (by decide),
   by decide⟩

end Monitor
